import Mathlib

/-
Verification development for the residue-confidence visualization and
interactive selection subsystem (PAE heatmap selection, cross-view highlight
coordinator, structure record parser, sequence annotation renderer).

The definitions below are a shallow embedding of the TypeScript source:
  - PAEHeatmap (selection state machine, pointer-to-residue mapping),
  - Molecule3D (highlight coordinator effect applyHighlight),
  - PDBInformation (parsePDB, getHighlightType, formatSequenceWithScores).
Machine floats are modelled by rationals; strings are modelled by Lean
strings and lists of characters with JavaScript-faithful helper functions.
-/

namespace GeminiHetzerk

/-! ## JavaScript string helpers -/

/-- JavaScript `s.split('\n')` on a list of characters. -/
def splitNL : List Char → List (List Char)
  | [] => [[]]
  | c :: rest =>
    match splitNL rest with
    | [] => [[c]]
    | h :: t => if c = '\n' then [] :: h :: t else (c :: h) :: t

/-- JavaScript `String.prototype.trim` (whitespace stripped from both ends). -/
def trimCh (l : List Char) : List Char :=
  ((l.dropWhile Char.isWhitespace).reverse.dropWhile Char.isWhitespace).reverse

/-- JavaScript `s.substring(a, b)` (characters with indices in `[a, b)`,
clamped to the length of the string). -/
def jsSubstring (l : List Char) (a b : Nat) : List Char :=
  (l.drop a).take (b - a)

/-- Value of the longest digit prefix, `Option.none` when there is no digit. -/
def digitsVal (l : List Char) : Option Nat :=
  let ds := l.takeWhile Char.isDigit
  if ds.isEmpty then Option.none
  else some (ds.foldl (fun a c => a * 10 + (c.toNat - 48)) 0)

/-- JavaScript `parseInt(s, 10)`: skip whitespace, optional sign, then the
longest digit prefix; `Option.none` models `NaN`. -/
def jsParseInt (l : List Char) : Option Int :=
  let l2 := l.dropWhile Char.isWhitespace
  match l2 with
  | '-' :: rest => (digitsVal rest).map (fun n => -(n : Int))
  | '+' :: rest => (digitsVal rest).map (fun n => (n : Int))
  | _ => (digitsVal l2).map (fun n => (n : Int))

/-! ## PAE heatmap selection (PAEHeatmap.tsx) -/

/-- The selection emitted by a completed drag over the PAE heatmap. -/
structure PAESelection where
  startResidue : Int
  endResidue : Int
  alignedStart : Int
  alignedEnd : Int
deriving DecidableEq

/-- Residue index for a canvas-space coordinate:
`Math.floor((canvasX / size) * numResidues)` in `getPositionFromEvent`. -/
def resIdx (size : ℚ) (numResidues : Nat) (x : ℚ) : Int :=
  ⌊x / size * (numResidues : ℚ)⌋

/-- The bounds check of `getPositionFromEvent` for one axis: the residue
index lies in `[0, numResidues)`. -/
def validCoord (size : ℚ) (numResidues : Nat) (x : ℚ) : Prop :=
  0 ≤ resIdx size numResidues x ∧ resIdx size numResidues x < (numResidues : Int)

instance (size : ℚ) (numResidues : Nat) (x : ℚ) :
    Decidable (validCoord size numResidues x) :=
  inferInstanceAs (Decidable (_ ∧ _))

/-- What `handleMouseUp` emits: whether the stored drag rectangle state was
cleared, the argument of an emitted `onSelectionChange` call (if any), and the
argument of an emitted `onResidueClick` call (if any). -/
structure UpOutcome where
  cleared : Bool
  selectionChange : Option (Option PAESelection)
  residueClick : Option (Int × Int)
deriving DecidableEq

/-- `handleMouseUp` of PAEHeatmap.tsx, given that a gesture is in progress
(`isSelecting` with drag-start point `selectionStart`, both recorded by
`handleMouseDown` at a position passing the bounds check) and the release
event resolves to canvas-space position `pos`.  The JavaScript comparison
`Math.sqrt(dx*dx + dy*dy) < 5` is modelled by `dx^2 + dy^2 < 25`. -/
def handleMouseUp (size : ℚ) (numResidues : Nat) (selectionStart pos : ℚ × ℚ) :
    UpOutcome :=
  if validCoord size numResidues pos.1 ∧ validCoord size numResidues pos.2 then
    if (pos.1 - selectionStart.1) ^ 2 + (pos.2 - selectionStart.2) ^ 2 < 25 then
      { cleared := true
        selectionChange := some Option.none
        residueClick := some (resIdx size numResidues pos.1 + 1,
                              resIdx size numResidues pos.2 + 1) }
    else
      let minCanvasX := min selectionStart.1 pos.1
      let maxCanvasX := max selectionStart.1 pos.1
      let minCanvasY := min selectionStart.2 pos.2
      let maxCanvasY := max selectionStart.2 pos.2
      { cleared := false
        selectionChange := some (some
          { startResidue := max 1 (⌊minCanvasX / size * (numResidues : ℚ)⌋ + 1)
            endResidue := min (numResidues : Int) ⌈maxCanvasX / size * (numResidues : ℚ)⌉
            alignedStart := max 1 (⌊minCanvasY / size * (numResidues : ℚ)⌋ + 1)
            alignedEnd := min (numResidues : Int) ⌈maxCanvasY / size * (numResidues : ℚ)⌉ })
        residueClick := Option.none }
  else
    { cleared := false, selectionChange := Option.none, residueClick := Option.none }

/-! ## Highlight classification (PDBInformation in Molecule3D.tsx) -/

/-- The PAE dual-range highlight passed down from the heatmap selection. -/
structure PAEHighlight where
  scoredStart : Int
  scoredEnd : Int
  alignedStart : Int
  alignedEnd : Int
deriving DecidableEq

/-- The four highlight categories of the sequence renderer. -/
inductive HighlightType
  | none
  | scored
  | aligned
  | both
deriving DecidableEq

/-- `getHighlightType` of PDBInformation: classify a residue number against
the (optional) PAE selection. -/
def getHighlightType (residueNumber : Int) (paeHighlight : Option PAEHighlight) :
    HighlightType :=
  match paeHighlight with
  | Option.none => HighlightType.none
  | some p =>
    if (p.scoredStart ≤ residueNumber ∧ residueNumber ≤ p.scoredEnd) ∧
       (p.alignedStart ≤ residueNumber ∧ residueNumber ≤ p.alignedEnd) then
      HighlightType.both
    else if p.scoredStart ≤ residueNumber ∧ residueNumber ≤ p.scoredEnd then
      HighlightType.scored
    else if p.alignedStart ≤ residueNumber ∧ residueNumber ≤ p.alignedEnd then
      HighlightType.aligned
    else
      HighlightType.none

/-! ## Claim C1 -/

/-- C1: for every non-null selection and residue number, `getHighlightType`
returns `both` iff the residue lies in both inclusive intervals, `scored` iff
it lies only in the scored interval, `aligned` iff only in the aligned
interval, `none` otherwise; being a Lean function it is pure, so identical
inputs yield identical classifications. -/
theorem getHighlightType_classification (p : PAEHighlight) (r : Int) :
    (getHighlightType r (some p) = HighlightType.both ↔
      (p.scoredStart ≤ r ∧ r ≤ p.scoredEnd) ∧
      (p.alignedStart ≤ r ∧ r ≤ p.alignedEnd)) ∧
    (getHighlightType r (some p) = HighlightType.scored ↔
      (p.scoredStart ≤ r ∧ r ≤ p.scoredEnd) ∧
      ¬ (p.alignedStart ≤ r ∧ r ≤ p.alignedEnd)) ∧
    (getHighlightType r (some p) = HighlightType.aligned ↔
      ¬ (p.scoredStart ≤ r ∧ r ≤ p.scoredEnd) ∧
      (p.alignedStart ≤ r ∧ r ≤ p.alignedEnd)) ∧
    (getHighlightType r (some p) = HighlightType.none ↔
      ¬ (p.scoredStart ≤ r ∧ r ≤ p.scoredEnd) ∧
      ¬ (p.alignedStart ≤ r ∧ r ≤ p.alignedEnd)) ∧
    getHighlightType r (some p) = getHighlightType r (some p) := by
  simp only [getHighlightType]
  split_ifs with h1 h2 h3 <;> simp_all

/-! ## Claims C2 and C3 -/

/-- Well-formedness of an emitted selection: two inclusive 1-based intervals
clamped to `[1, numResidues]`. -/
def SelectionWellFormed (numResidues : Nat) (sel : PAESelection) : Prop :=
  1 ≤ sel.startResidue ∧ sel.startResidue ≤ sel.endResidue ∧
    sel.endResidue ≤ (numResidues : Int) ∧
  1 ≤ sel.alignedStart ∧ sel.alignedStart ≤ sel.alignedEnd ∧
    sel.alignedEnd ≤ (numResidues : Int)

instance (numResidues : Nat) (sel : PAESelection) :
    Decidable (SelectionWellFormed numResidues sel) :=
  inferInstanceAs (Decidable (_ ∧ _ ∧ _ ∧ _ ∧ _ ∧ _))

lemma minmax_scaled_bounds (size : ℚ) (N : Nat) (a b : ℚ)
    (ha : validCoord size N a) (hb : validCoord size N b) :
    0 ≤ ⌊min a b / size * (N : ℚ)⌋ ∧ ⌈max a b / size * (N : ℚ)⌉ ≤ (N : Int) := by
  obtain ⟨ha0, haN⟩ := ha
  obtain ⟨hb0, hbN⟩ := hb
  unfold resIdx at ha0 haN hb0 hbN
  constructor
  · rcases le_total a b with h | h
    · simpa [min_eq_left h] using ha0
    · simpa [min_eq_right h] using hb0
  · rcases le_total a b with h | h
    · have h2 : b / size * (N : ℚ) < ((N : Int) : ℚ) := Int.floor_lt.mp hbN
      have h3 := Int.ceil_le.mpr h2.le
      simpa [max_eq_right h] using h3
    · have h2 : a / size * (N : ℚ) < ((N : Int) : ℚ) := Int.floor_lt.mp haN
      have h3 := Int.ceil_le.mpr h2.le
      simpa [max_eq_left h] using h3

/-- On a gesture released at a valid position with canvas-space displacement
squared below 25, `handleMouseUp` clears the stored rectangle, emits
`selectionChange(null)` and emits a click at the 1-based residue coordinates
under the release point. -/
lemma handleMouseUp_click_eq (size : ℚ) (N : Nat) (s e : ℚ × ℚ)
    (he1 : validCoord size N e.1) (he2 : validCoord size N e.2)
    (hd : (e.1 - s.1) ^ 2 + (e.2 - s.2) ^ 2 < 25) :
    handleMouseUp size N s e =
      { cleared := true
        selectionChange := some Option.none
        residueClick := some (resIdx size N e.1 + 1, resIdx size N e.2 + 1) } := by
  unfold handleMouseUp
  rw [if_pos ⟨he1, he2⟩, if_pos hd]

/-- On a gesture released at a valid position with displacement squared at
least 25, `handleMouseUp` emits the selection obtained from the bounding
rectangle by `floor(min/S*N)+1` and `ceil(max/S*N)`; under the validity
hypotheses the clamping to `[1, numResidues]` is the identity. -/
lemma handleMouseUp_drag_eq (size : ℚ) (N : Nat) (s e : ℚ × ℚ)
    (hs1 : validCoord size N s.1) (hs2 : validCoord size N s.2)
    (he1 : validCoord size N e.1) (he2 : validCoord size N e.2)
    (hd : ¬ (e.1 - s.1) ^ 2 + (e.2 - s.2) ^ 2 < 25) :
    handleMouseUp size N s e =
      { cleared := false
        selectionChange := some (some
          { startResidue := ⌊min s.1 e.1 / size * (N : ℚ)⌋ + 1
            endResidue := ⌈max s.1 e.1 / size * (N : ℚ)⌉
            alignedStart := ⌊min s.2 e.2 / size * (N : ℚ)⌋ + 1
            alignedEnd := ⌈max s.2 e.2 / size * (N : ℚ)⌉ })
        residueClick := Option.none } := by
  obtain ⟨hx0, hxN⟩ := minmax_scaled_bounds size N s.1 e.1 hs1 he1
  obtain ⟨hy0, hyN⟩ := minmax_scaled_bounds size N s.2 e.2 hs2 he2
  unfold handleMouseUp
  rw [if_pos ⟨he1, he2⟩, if_neg hd]
  have hx1 : max 1 (⌊min s.1 e.1 / size * (N : ℚ)⌋ + 1) =
      ⌊min s.1 e.1 / size * (N : ℚ)⌋ + 1 := max_eq_right (by omega)
  have hy1 : max 1 (⌊min s.2 e.2 / size * (N : ℚ)⌋ + 1) =
      ⌊min s.2 e.2 / size * (N : ℚ)⌋ + 1 := max_eq_right (by omega)
  have hx2 : min (N : Int) ⌈max s.1 e.1 / size * (N : ℚ)⌉ =
      ⌈max s.1 e.1 / size * (N : ℚ)⌉ := min_eq_right hxN
  have hy2 : min (N : Int) ⌈max s.2 e.2 / size * (N : ℚ)⌉ =
      ⌈max s.2 e.2 / size * (N : ℚ)⌉ := min_eq_right hyN
  simp only [hx1, hy1, hx2, hy2]

/-- C2: on pointer-up ending a gesture (drag-start recorded at a valid
position, released at a valid position), squared displacement below 25
(distance strictly below 5) gives a click — stored rectangle cleared,
`selectionChange(null)`, click at the 1-based residue coordinates under the
release point — and otherwise a drag, emitting `selectionChange` with the
ranges `floor(min/S*N)+1` and `ceil(max/S*N)` of the bounding rectangle. -/
theorem handleMouseUp_click_or_drag (size : ℚ) (N : Nat) (s e : ℚ × ℚ)
    (hs1 : validCoord size N s.1) (hs2 : validCoord size N s.2)
    (he1 : validCoord size N e.1) (he2 : validCoord size N e.2) :
    ((e.1 - s.1) ^ 2 + (e.2 - s.2) ^ 2 < 25 →
      handleMouseUp size N s e =
        { cleared := true
          selectionChange := some Option.none
          residueClick := some (resIdx size N e.1 + 1, resIdx size N e.2 + 1) }) ∧
    (¬ (e.1 - s.1) ^ 2 + (e.2 - s.2) ^ 2 < 25 →
      handleMouseUp size N s e =
        { cleared := false
          selectionChange := some (some
            { startResidue := ⌊min s.1 e.1 / size * (N : ℚ)⌋ + 1
              endResidue := ⌈max s.1 e.1 / size * (N : ℚ)⌉
              alignedStart := ⌊min s.2 e.2 / size * (N : ℚ)⌋ + 1
              alignedEnd := ⌈max s.2 e.2 / size * (N : ℚ)⌉ })
          residueClick := Option.none }) :=
  ⟨fun hd => handleMouseUp_click_eq size N s e he1 he2 hd,
   fun hd => handleMouseUp_drag_eq size N s e hs1 hs2 he1 he2 hd⟩

theorem handleMouseUp_click_or_drag_witness :
    handleMouseUp 280 10 ((0 : ℚ), (0 : ℚ)) ((1 : ℚ), (1 : ℚ)) =
      { cleared := true
        selectionChange := some Option.none
        residueClick := some (1, 1) } := by
  have h := (handleMouseUp_click_or_drag 280 10 ((0 : ℚ), (0 : ℚ)) ((1 : ℚ), (1 : ℚ))
    (by norm_num [validCoord, resIdx]) (by norm_num [validCoord, resIdx])
    (by norm_num [validCoord, resIdx]) (by norm_num [validCoord, resIdx])).1 (by norm_num)
  rw [h]
  norm_num [resIdx]

lemma scaled_le_scaled (size : ℚ) (N : Nat) (a b : ℚ) (hsize : 0 < size)
    (h : a ≤ b) : a / size * (N : ℚ) ≤ b / size * (N : ℚ) := by
  have hN : (0 : ℚ) ≤ (N : ℚ) := Nat.cast_nonneg N
  have : a / size ≤ b / size := by gcongr
  exact mul_le_mul_of_nonneg_right this hN

/-- On each axis: if the two canvas coordinates differ, or the shared
coordinate scaled to residue space is not an exact integer, the computed
lower bound does not exceed the computed upper bound. -/
lemma axis_bounds_ordered (size : ℚ) (N : Nat) (a b : ℚ) (hsize : 0 < size)
    (ha : validCoord size N a) (hb : validCoord size N b)
    (hnd : min a b < max a b ∨
      ((⌊min a b / size * (N : ℚ)⌋ : ℚ) ≠ min a b / size * (N : ℚ))) :
    ⌊min a b / size * (N : ℚ)⌋ + 1 ≤ ⌈max a b / size * (N : ℚ)⌉ := by
  have hN1 : 1 ≤ N := by
    rcases Nat.eq_zero_or_pos N with hN0 | h
    · obtain ⟨h0, hlt⟩ := ha
      subst hN0
      simp only [Nat.cast_zero] at hlt
      omega
    · omega
  have hNpos : (0 : ℚ) < (N : ℚ) := by exact_mod_cast Nat.pos_of_ne_zero (by omega)
  set va := min a b / size * (N : ℚ) with hva
  set vb := max a b / size * (N : ℚ) with hvb
  have hkey : (⌊va⌋ : ℚ) < vb := by
    rcases hnd with hlt | hne
    · have hstrict : va < vb := by
        rw [hva, hvb]
        have h1 : min a b / size < max a b / size := by gcongr
        exact mul_lt_mul_of_pos_right h1 hNpos
      exact lt_of_le_of_lt (Int.floor_le va) hstrict
    · have h1 : (⌊va⌋ : ℚ) < va := lt_of_le_of_ne (Int.floor_le va) hne
      have h2 : va ≤ vb := scaled_le_scaled size N _ _ hsize (min_le_max)
      exact lt_of_lt_of_le h1 h2
  have h3 : (⌊va⌋ : ℚ) < (⌈vb⌉ : ℚ) := lt_of_lt_of_le hkey (Int.le_ceil vb)
  have h4 : ⌊va⌋ < ⌈vb⌉ := by exact_mod_cast h3
  omega

/-- C3 (amended): the selection emitted by a completed drag always satisfies
the clamps `1 ≤ startResidue`, `endResidue ≤ numResidues`,
`1 ≤ alignedStart`, `alignedEnd ≤ numResidues`; and on each axis the lower
bound does not exceed the upper bound provided the axis is not degenerate at
an exact residue-grid coordinate (the two canvas coordinates differ, or the
shared coordinate times N/S is not an integer). -/
theorem drag_selection_wellformed (size : ℚ) (N : Nat) (s e : ℚ × ℚ)
    (hsize : 0 < size)
    (hs1 : validCoord size N s.1) (hs2 : validCoord size N s.2)
    (he1 : validCoord size N e.1) (he2 : validCoord size N e.2)
    (hd : ¬ (e.1 - s.1) ^ 2 + (e.2 - s.2) ^ 2 < 25) :
    ∃ sel,
      handleMouseUp size N s e =
        { cleared := false, selectionChange := some (some sel),
          residueClick := Option.none } ∧
      1 ≤ sel.startResidue ∧ sel.endResidue ≤ (N : Int) ∧
      1 ≤ sel.alignedStart ∧ sel.alignedEnd ≤ (N : Int) ∧
      ((min s.1 e.1 < max s.1 e.1 ∨
          ((⌊min s.1 e.1 / size * (N : ℚ)⌋ : ℚ) ≠ min s.1 e.1 / size * (N : ℚ))) →
        sel.startResidue ≤ sel.endResidue) ∧
      ((min s.2 e.2 < max s.2 e.2 ∨
          ((⌊min s.2 e.2 / size * (N : ℚ)⌋ : ℚ) ≠ min s.2 e.2 / size * (N : ℚ))) →
        sel.alignedStart ≤ sel.alignedEnd) := by
  obtain ⟨hx0, hxN⟩ := minmax_scaled_bounds size N s.1 e.1 hs1 he1
  obtain ⟨hy0, hyN⟩ := minmax_scaled_bounds size N s.2 e.2 hs2 he2
  refine ⟨{ startResidue := ⌊min s.1 e.1 / size * (N : ℚ)⌋ + 1
            endResidue := ⌈max s.1 e.1 / size * (N : ℚ)⌉
            alignedStart := ⌊min s.2 e.2 / size * (N : ℚ)⌋ + 1
            alignedEnd := ⌈max s.2 e.2 / size * (N : ℚ)⌉ },
    handleMouseUp_drag_eq size N s e hs1 hs2 he1 he2 hd, ?_, ?_, ?_, ?_, ?_, ?_⟩
  · show 1 ≤ ⌊min s.1 e.1 / size * (N : ℚ)⌋ + 1
    omega
  · exact hxN
  · show 1 ≤ ⌊min s.2 e.2 / size * (N : ℚ)⌋ + 1
    omega
  · exact hyN
  · exact fun hnd => axis_bounds_ordered size N s.1 e.1 hsize hs1 he1 hnd
  · exact fun hnd => axis_bounds_ordered size N s.2 e.2 hsize hs2 he2 hnd

theorem drag_selection_wellformed_witness :
    ∃ sel,
      handleMouseUp 280 10 ((3 : ℚ), (0 : ℚ)) ((3 : ℚ), (10 : ℚ)) =
        { cleared := false, selectionChange := some (some sel),
          residueClick := Option.none } ∧
      1 ≤ sel.startResidue ∧ sel.endResidue ≤ (10 : Int) ∧
      1 ≤ sel.alignedStart ∧ sel.alignedEnd ≤ (10 : Int) ∧
      ((min (3 : ℚ) 3 < max (3 : ℚ) 3 ∨
          ((⌊min (3 : ℚ) 3 / 280 * (10 : ℚ)⌋ : ℚ) ≠ min (3 : ℚ) 3 / 280 * (10 : ℚ))) →
        sel.startResidue ≤ sel.endResidue) ∧
      ((min (0 : ℚ) 10 < max (0 : ℚ) 10 ∨
          ((⌊min (0 : ℚ) 10 / 280 * (10 : ℚ)⌋ : ℚ) ≠ min (0 : ℚ) 10 / 280 * (10 : ℚ))) →
        sel.alignedStart ≤ sel.alignedEnd) :=
  drag_selection_wellformed 280 10 ((3 : ℚ), (0 : ℚ)) ((3 : ℚ), (10 : ℚ))
    (by norm_num) (by norm_num [validCoord, resIdx]) (by norm_num [validCoord, resIdx])
    (by norm_num [validCoord, resIdx]) (by norm_num [validCoord, resIdx]) (by norm_num)

/-- C3 counterexample: a vertical drag along the exact left edge of the
canvas (canvas x = 0, displacement 10 ≥ 5, both endpoints valid, 10 residues)
emits the selection (startResidue 1, endResidue 0, alignedStart 1,
alignedEnd 1), which violates `1 ≤ startResidue ≤ endResidue ≤ numResidues`:
the computed upper bound `ceil(0/S*N) = 0` is below the lower bound and is
not clamped back to 1. -/
theorem drag_selection_wellformed_cex :
    validCoord 280 10 0 ∧ validCoord 280 10 10 ∧
    ¬ ((0 : ℚ) - 0) ^ 2 + ((10 : ℚ) - 0) ^ 2 < 25 ∧
    handleMouseUp 280 10 ((0 : ℚ), (0 : ℚ)) ((0 : ℚ), (10 : ℚ)) =
      { cleared := false
        selectionChange := some (some
          { startResidue := 1, endResidue := 0, alignedStart := 1, alignedEnd := 1 })
        residueClick := Option.none } ∧
    ¬ SelectionWellFormed 10
        { startResidue := 1, endResidue := 0, alignedStart := 1, alignedEnd := 1 } := by
  have hv0 : validCoord 280 10 0 := by norm_num [validCoord, resIdx]
  have hv10 : validCoord 280 10 10 := by norm_num [validCoord, resIdx]
  have hd : ¬ ((0 : ℚ) - 0) ^ 2 + ((10 : ℚ) - 0) ^ 2 < 25 := by norm_num
  refine ⟨hv0, hv10, hd, ?_, by decide⟩
  have h := handleMouseUp_drag_eq 280 10 ((0 : ℚ), (0 : ℚ)) ((0 : ℚ), (10 : ℚ))
    hv0 hv0 hv0 hv10 (by norm_num)
  rw [h]
  norm_num
  rw [Int.ceil_eq_iff]
  norm_num

/-! ## Cross-view highlight coordinator (applyHighlight effect, Molecule3D.tsx) -/

/-- The single-range legacy highlight prop. -/
structure ResidueRange where
  startResidue : Int
  endResidue : Int
  chainId : Option String
deriving DecidableEq

/-- RGB color literal as passed to the 3D view capability. -/
structure Color where
  r : Nat
  g : Nat
  b : Nat
deriving DecidableEq

/-- One selection query sent to `viewer.visual.select`. -/
structure SelQuery where
  entity_id : String
  start_residue_number : Int
  end_residue_number : Int
  color : Color
  focus : Bool
  auth_asym_id : Option String
deriving DecidableEq

/-- Instructions the coordinator can issue to the 3D view capability. -/
inductive Instr
  | select (data : List SelQuery) (nonSelectedColor : Color)
  | clearSelection
  | reset (camera theme : Bool)
deriving DecidableEq

/-- The textual range summary shown by `setSelectionInfo`. -/
inductive InfoText
  | paeSummary (scoredStart scoredEnd alignedStart alignedEnd : Int)
  | rangeSummary (startResidue endResidue : Int) (chain : Option String)
deriving DecidableEq

/-- Component state read and written by the effect: the `hadHighlightRef`
flag and the `selectionInfo` display state. -/
structure CoordState where
  hadHighlight : Bool
  selectionInfo : Option InfoText
deriving DecidableEq

/-- Result of one coordinator invocation: the updated state and the
instructions issued to the 3D view capability, in order. -/
structure StepOut where
  state : CoordState
  instrs : List Instr
deriving DecidableEq

/-- The two colored-range queries built for a PAE dual-range highlight. -/
def paeQueries (p : PAEHighlight) : List SelQuery :=
  [ { entity_id := "1", start_residue_number := p.scoredStart,
      end_residue_number := p.scoredEnd, color := { r := 59, g := 130, b := 246 },
      focus := false, auth_asym_id := Option.none },
    { entity_id := "1", start_residue_number := p.alignedStart,
      end_residue_number := p.alignedEnd, color := { r := 34, g := 197, b := 94 },
      focus := false, auth_asym_id := Option.none } ]

/-- The single query built for the legacy highlight range. -/
def legacyQuery (hr : ResidueRange) : SelQuery :=
  { entity_id := "1", start_residue_number := hr.startResidue,
    end_residue_number := hr.endResidue, color := { r := 59, g := 130, b := 246 },
    focus := true, auth_asym_id := hr.chainId }

/-- The `try` block of `applyHighlight`.  The booleans `selectThrows` and
`clearThrows` model a rejecting `viewer.visual.select` and
`viewer.visual.clearSelection`; on an exception the error value carries the
state mutations and capability calls performed before the throw
(`hadHighlightRef.current` is set before the select call, and is not reset
when `clearSelection` throws). -/
def applyHighlightTry (st : CoordState) (pae : Option PAEHighlight)
    (hr : Option ResidueRange) (selectThrows clearThrows : Bool) :
    Except (CoordState × List Instr) StepOut :=
  let hasHighlight := pae.isSome || hr.isSome
  if hasHighlight = false then
    if st.hadHighlight then
      if clearThrows then Except.error (st, [Instr.clearSelection])
      else Except.ok { state := { hadHighlight := false, selectionInfo := Option.none }
                       instrs := [Instr.clearSelection] }
    else Except.ok { state := st, instrs := [] }
  else
    let st1 : CoordState := { hadHighlight := true, selectionInfo := st.selectionInfo }
    match pae with
    | some p =>
      let i := Instr.select (paeQueries p) { r := 220, g := 220, b := 220 }
      let info := some (InfoText.paeSummary p.scoredStart p.scoredEnd p.alignedStart p.alignedEnd)
      if selectThrows then Except.error (st1, [i])
      else Except.ok { state := { hadHighlight := true, selectionInfo := info }, instrs := [i] }
    | Option.none =>
      match hr with
      | some r =>
        let i := Instr.select [legacyQuery r] { r := 200, g := 200, b := 200 }
        let info := some (InfoText.rangeSummary r.startResidue r.endResidue r.chainId)
        if selectThrows then Except.error (st1, [i])
        else Except.ok { state := { hadHighlight := true, selectionInfo := info }, instrs := [i] }
      | Option.none => Except.ok { state := st1, instrs := [] }

/-- Outcome of the whole async function: it either returns normally or
raises an exception to its caller. -/
inductive CoordOutcome
  | returned (out : StepOut)
  | raised
deriving DecidableEq

/-- `applyHighlight` of Molecule3D.tsx: the `try` block wrapped in the
`catch` handler, which logs and then presents the textual range summary for
the current selection (PAE form first, then legacy form without the chain
suffix). -/
def applyHighlight (st : CoordState) (pae : Option PAEHighlight)
    (hr : Option ResidueRange) (selectThrows clearThrows : Bool) : CoordOutcome :=
  match applyHighlightTry st pae hr selectThrows clearThrows with
  | Except.ok o => CoordOutcome.returned o
  | Except.error (stp, instrs) =>
    let info :=
      match pae with
      | some p =>
        some (InfoText.paeSummary p.scoredStart p.scoredEnd p.alignedStart p.alignedEnd)
      | Option.none =>
        match hr with
        | some r => some (InfoText.rangeSummary r.startResidue r.endResidue Option.none)
        | Option.none => stp.selectionInfo
    CoordOutcome.returned
      { state := { hadHighlight := stp.hadHighlight, selectionInfo := info }
        instrs := instrs }

/-- One failure-free invocation of the coordinator with the PAE selection as
the only highlight prop (as wired in ProteinViewerPanel.tsx, where
`highlightRange` is never passed). -/
def coordStep (st : CoordState) (pae : Option PAEHighlight) : StepOut :=
  match applyHighlight st pae Option.none false false with
  | CoordOutcome.returned o => o
  | CoordOutcome.raised => { state := st, instrs := [] }

/-- The per-invocation instruction batches of a sequence of coordinator
invocations, starting from state `st`. -/
def coordBatches (st : CoordState) : List (Option PAEHighlight) → List (List Instr)
  | [] => []
  | sel :: rest =>
    let o := coordStep st sel
    o.instrs :: coordBatches o.state rest

lemma coordStep_some (st : CoordState) (p : PAEHighlight) :
    coordStep st (some p) =
      { state :=
          { hadHighlight := true
            selectionInfo := some (InfoText.paeSummary p.scoredStart p.scoredEnd
              p.alignedStart p.alignedEnd) }
        instrs := [Instr.select (paeQueries p) { r := 220, g := 220, b := 220 }] } := by
  simp [coordStep, applyHighlight, applyHighlightTry]

lemma coordStep_none (st : CoordState) :
    coordStep st Option.none =
      if st.hadHighlight then
        { state := { hadHighlight := false, selectionInfo := Option.none }
          instrs := [Instr.clearSelection] }
      else { state := st, instrs := [] } := by
  rcases st with ⟨had, info⟩
  cases had <;> simp [coordStep, applyHighlight, applyHighlightTry]

lemma coordStep_none_state (st : CoordState) :
    (coordStep st Option.none).state.hadHighlight = false := by
  rw [coordStep_none]
  rcases st with ⟨had, info⟩
  cases had <;> simp

/-- After processing one input, `hadHighlight` equals whether that input was
a (non-null) selection. -/
lemma coordStep_state_hadHighlight (st : CoordState) (sel : Option PAEHighlight) :
    (coordStep st sel).state.hadHighlight = sel.isSome := by
  cases sel with
  | none => simpa using coordStep_none_state st
  | some p => simp [coordStep_some]

lemma coordBatches_cons (st : CoordState) (sel : Option PAEHighlight)
    (rest : List (Option PAEHighlight)) :
    coordBatches st (sel :: rest) =
      (coordStep st sel).instrs :: coordBatches (coordStep st sel).state rest := rfl

/-! ## Claim C4 -/

/-- C4: in any sequence of coordinator invocations, a transition of the
selection from non-null to null issues exactly the single instruction
`clearSelection` (in particular no camera or theme reset), and a second
consecutive null invocation issues no instruction at all. -/
theorem applyHighlight_clear_transitions (st : CoordState)
    (inputs : List (Option PAEHighlight)) (i : Nat) :
    ((∃ p, inputs[i]? = some (some p)) → inputs[i + 1]? = some Option.none →
      (coordBatches st inputs)[i + 1]? = some [Instr.clearSelection]) ∧
    (inputs[i]? = some Option.none → inputs[i + 1]? = some Option.none →
      (coordBatches st inputs)[i + 1]? = some []) := by
  induction inputs generalizing st i with
  | nil => simp
  | cons a rest ih =>
    cases i with
    | zero =>
      constructor
      · rintro ⟨p, hp⟩ hnext
        simp only [List.getElem?_cons_zero, Option.some.injEq] at hp
        subst hp
        rcases rest with _ | ⟨b, rest2⟩
        · simp at hnext
        · simp only [List.getElem?_cons_succ, List.getElem?_cons_zero,
            Option.some.injEq] at hnext
          subst hnext
          rw [coordBatches_cons, coordBatches_cons]
          have hstate : (coordStep st (some p)).state.hadHighlight = true := by
            rw [coordStep_state_hadHighlight]; rfl
          simp only [List.getElem?_cons_succ, List.getElem?_cons_zero]
          rw [coordStep_none]
          rw [hstate]
          simp
      · intro ha hnext
        simp only [List.getElem?_cons_zero, Option.some.injEq] at ha
        subst ha
        rcases rest with _ | ⟨b, rest2⟩
        · simp at hnext
        · simp only [List.getElem?_cons_succ, List.getElem?_cons_zero,
            Option.some.injEq] at hnext
          subst hnext
          rw [coordBatches_cons, coordBatches_cons]
          have hstate : (coordStep st Option.none).state.hadHighlight = false :=
            coordStep_none_state st
          simp only [List.getElem?_cons_succ, List.getElem?_cons_zero]
          rw [coordStep_none]
          rw [hstate]
          simp
    | succ j =>
      constructor
      · rintro ⟨p, hp⟩ hnext
        simp only [List.getElem?_cons_succ] at hp hnext
        rw [coordBatches_cons]
        simp only [List.getElem?_cons_succ]
        exact (ih (coordStep st a).state j).1 ⟨p, hp⟩ hnext
      · intro ha hnext
        simp only [List.getElem?_cons_succ] at ha hnext
        rw [coordBatches_cons]
        simp only [List.getElem?_cons_succ]
        exact (ih (coordStep st a).state j).2 ha hnext

theorem applyHighlight_clear_transitions_witness :
    (coordBatches { hadHighlight := false, selectionInfo := Option.none }
        [some { scoredStart := 1, scoredEnd := 5, alignedStart := 10, alignedEnd := 20 },
         Option.none, Option.none])[1]? = some [Instr.clearSelection] ∧
    (coordBatches { hadHighlight := false, selectionInfo := Option.none }
        [some { scoredStart := 1, scoredEnd := 5, alignedStart := 10, alignedEnd := 20 },
         Option.none, Option.none])[2]? = some [] :=
  ⟨(applyHighlight_clear_transitions { hadHighlight := false, selectionInfo := Option.none }
      [some { scoredStart := 1, scoredEnd := 5, alignedStart := 10, alignedEnd := 20 },
       Option.none, Option.none] 0).1
      ⟨{ scoredStart := 1, scoredEnd := 5, alignedStart := 10, alignedEnd := 20 }, rfl⟩ rfl,
   (applyHighlight_clear_transitions { hadHighlight := false, selectionInfo := Option.none }
      [some { scoredStart := 1, scoredEnd := 5, alignedStart := 10, alignedEnd := 20 },
       Option.none, Option.none] 1).2 rfl rfl⟩

/-! ## Claim C7 -/

/-- C7: `applyHighlight` never raises to its caller; when the 3D view
capability throws while a highlight is being applied, the catch handler
still presents the textual range summary for the current selection — the
scored and aligned ranges for a PAE highlight, or the single legacy range. -/
theorem applyHighlight_never_raises (st : CoordState) (pae : Option PAEHighlight)
    (hr : Option ResidueRange) (selectThrows clearThrows : Bool) :
    (∃ out, applyHighlight st pae hr selectThrows clearThrows =
      CoordOutcome.returned out) ∧
    (∀ p, pae = some p → selectThrows = true →
      applyHighlight st pae hr selectThrows clearThrows =
        CoordOutcome.returned
          { state :=
              { hadHighlight := true
                selectionInfo := some (InfoText.paeSummary p.scoredStart p.scoredEnd
                  p.alignedStart p.alignedEnd) }
            instrs := [Instr.select (paeQueries p) { r := 220, g := 220, b := 220 }] }) ∧
    (∀ r, pae = Option.none → hr = some r → selectThrows = true →
      applyHighlight st pae hr selectThrows clearThrows =
        CoordOutcome.returned
          { state :=
              { hadHighlight := true
                selectionInfo := some (InfoText.rangeSummary r.startResidue r.endResidue
                  Option.none) }
            instrs := [Instr.select [legacyQuery r] { r := 200, g := 200, b := 200 }] }) := by
  refine ⟨?_, ?_, ?_⟩
  · unfold applyHighlight
    rcases h : applyHighlightTry st pae hr selectThrows clearThrows with e | o
    · rcases e with ⟨stp, instrs⟩
      exact ⟨_, rfl⟩
    · exact ⟨_, rfl⟩
  · rintro p rfl rfl
    simp [applyHighlight, applyHighlightTry]
  · rintro r rfl rfl rfl
    simp [applyHighlight, applyHighlightTry]

theorem applyHighlight_never_raises_witness :
    (∃ out, applyHighlight { hadHighlight := false, selectionInfo := Option.none }
      (some { scoredStart := 2, scoredEnd := 4, alignedStart := 6, alignedEnd := 8 })
      Option.none true false = CoordOutcome.returned out) ∧
    applyHighlight { hadHighlight := false, selectionInfo := Option.none }
      (some { scoredStart := 2, scoredEnd := 4, alignedStart := 6, alignedEnd := 8 })
      Option.none true false =
      CoordOutcome.returned
        { state :=
            { hadHighlight := true
              selectionInfo := some (InfoText.paeSummary 2 4 6 8) }
          instrs := [Instr.select
            (paeQueries { scoredStart := 2, scoredEnd := 4, alignedStart := 6, alignedEnd := 8 })
            { r := 220, g := 220, b := 220 }] } :=
  ⟨(applyHighlight_never_raises { hadHighlight := false, selectionInfo := Option.none }
      (some { scoredStart := 2, scoredEnd := 4, alignedStart := 6, alignedEnd := 8 })
      Option.none true false).1,
   (applyHighlight_never_raises { hadHighlight := false, selectionInfo := Option.none }
      (some { scoredStart := 2, scoredEnd := 4, alignedStart := 6, alignedEnd := 8 })
      Option.none true false).2.1
      { scoredStart := 2, scoredEnd := 4, alignedStart := 6, alignedEnd := 8 } rfl rfl⟩

/-! ## Structure record parser (parsePDB in PDBInformation, Molecule3D.tsx) -/

/-- The chain classification used for display grouping. -/
inductive ChainKind
  | Protein
  | RNA
  | DNA
  | Ion
  | Ligand
  | Other
deriving DecidableEq

/-- One output record of the parser. -/
structure ChainInfo where
  chainId : String
  type : ChainKind
  sequence : String
  residueCount : Nat
  startResidue : Int
deriving DecidableEq

/-- The fixed three-to-one residue-name translation table. -/
def THREE_TO_ONE : List (String × Char) :=
  [("ALA", 'A'), ("ARG", 'R'), ("ASN", 'N'), ("ASP", 'D'), ("CYS", 'C'),
   ("GLN", 'Q'), ("GLU", 'E'), ("GLY", 'G'), ("HIS", 'H'), ("ILE", 'I'),
   ("LEU", 'L'), ("LYS", 'K'), ("MET", 'M'), ("PHE", 'F'), ("PRO", 'P'),
   ("SER", 'S'), ("THR", 'T'), ("TRP", 'W'), ("TYR", 'Y'), ("VAL", 'V'),
   ("SEC", 'U'), ("PYL", 'O'),
   ("A", 'A'), ("C", 'C'), ("G", 'G'), ("U", 'U'), ("T", 'T'),
   ("DA", 'A'), ("DC", 'C'), ("DG", 'G'), ("DT", 'T')]

/-- `THREE_TO_ONE[resName] || 'X'`. -/
def threeToOne (resName : String) : Char :=
  (THREE_TO_ONE.lookup resName).getD 'X'

def waterNames : List String := ["HOH", "WAT", "H2O"]

def ionNames : List String := ["ZN", "MG", "CA", "FE", "MN", "CU", "NA", "K", "CL"]

def rnaNames : List String := ["A", "C", "G", "U"]

def dnaNames : List String := ["DA", "DC", "DG", "DT"]

/-- The display symbol of an ion species, as produced for the Ion
pseudo-chain sequence. -/
def ionSymbol (ion : String) : String :=
  if ion = "ZN" then ("Zn²⁺")
  else if ion = "MG" then ("Mg²⁺")
  else if ion = "CA" then ("Ca²⁺")
  else if ion = "FE" then ("Fe²⁺/³⁺")
  else if ion = "CL" then ("Cl⁻")
  else ion

/-- Per-chain accumulator: residues as an insertion-ordered association list
keyed by residue number (a JavaScript Map), and the running chain type. -/
structure ChainData where
  residues : List (Int × Char)
  type : ChainKind
deriving DecidableEq

/-- The two accumulators of the parsing loop (both JavaScript Maps, which
iterate in insertion order). -/
structure ParseState where
  chains : List (String × ChainData)
  ions : List (String × List String)
deriving DecidableEq

/-- `line.substring(0, 6).trim()`. -/
def recordTypeOf (line : List Char) : String :=
  String.mk (trimCh (jsSubstring line 0 6))

/-- `line.substring(17, 20).trim()`. -/
def resNameOf (line : List Char) : String :=
  String.mk (trimCh (jsSubstring line 17 20))

/-- `line.substring(21, 22).trim() || 'A'`. -/
def chainIdOf (line : List Char) : String :=
  let c := String.mk (trimCh (jsSubstring line 21 22))
  if c = "" then ("A") else c

/-- `parseInt(line.substring(22, 26).trim(), 10)`, `Option.none` for NaN. -/
def resSeqOf (line : List Char) : Option Int :=
  jsParseInt (trimCh (jsSubstring line 22 26))

/-- `line.startsWith('ATOM') || line.startsWith('HETATM')`. -/
def isAtomLine (line : List Char) : Bool :=
  List.isPrefixOf ("ATOM".data) line || List.isPrefixOf ("HETATM".data) line

/-- Update of one chain accumulator by one polymer atom line: insert the
residue if its number is unseen (first occurrence wins) and, only in that
case, re-classify the chain type on a nucleotide residue name. -/
def chainUpd (cd : ChainData) (resName : String) (resSeq : Int) : ChainData :=
  if (cd.residues.lookup resSeq).isSome then cd
  else
    { residues := cd.residues ++ [(resSeq, threeToOne resName)]
      type :=
        if resName ∈ rnaNames then ChainKind.RNA
        else if resName ∈ dnaNames then ChainKind.DNA
        else cd.type }

/-- `chains.set` pattern of the source: get-or-create the chain entry, then
apply `chainUpd`; preserves insertion order of the keys. -/
def chainAdd : List (String × ChainData) → String → String → Int →
    List (String × ChainData)
  | [], c, rn, rs => [(c, chainUpd { residues := [], type := ChainKind.Protein } rn rs)]
  | (k, v) :: rest, c, rn, rs =>
    if k = c then (k, chainUpd v rn rs) :: rest
    else (k, v) :: chainAdd rest c rn rs

/-- `ions.set` pattern of the source: get-or-create the per-chain species
list and push the species if not already present. -/
def ionAdd : List (String × List String) → String → String →
    List (String × List String)
  | [], c, rn => [(c, [rn])]
  | (k, v) :: rest, c, rn =>
    if k = c then (k, if rn ∈ v then v else v ++ [rn]) :: rest
    else (k, v) :: ionAdd rest c rn

/-- The loop body of `parsePDB` for one line. -/
def processLine (st : ParseState) (line : List Char) : ParseState :=
  if isAtomLine line then
    match resSeqOf line with
    | Option.none => st
    | some resSeq =>
      if recordTypeOf line = "HETATM" then
        if resNameOf line ∈ waterNames then st
        else if resNameOf line ∈ ionNames then
          { st with ions := ionAdd st.ions (chainIdOf line) (resNameOf line) }
        else st
      else
        { st with chains := chainAdd st.chains (chainIdOf line) (resNameOf line) resSeq }
  else st

/-- The accumulator state after the parsing loop. -/
def parseStateOf (lines : List (List Char)) : ParseState :=
  lines.foldl processLine { chains := [], ions := [] }

/-- Build the output record of one polymer chain: keys sorted ascending
(`sort((a, b) => a - b)`), sequence joined from the per-number codes,
`residueNumbers[0] || 1` for the start (JavaScript falsiness: an empty list
or a first number 0 both give 1). -/
def buildChainInfo (chainId : String) (cd : ChainData) : ChainInfo :=
  let residueNumbers := (cd.residues.map Prod.fst).insertionSort (· ≤ ·)
  { chainId := chainId
    type := cd.type
    sequence := String.mk (residueNumbers.map (fun n => (cd.residues.lookup n).getD 'X'))
    residueCount := residueNumbers.length
    startResidue :=
      match residueNumbers with
      | [] => 1
      | n :: _ => if n = 0 then 1 else n }

/-- Build the Ion pseudo-chain record of one chain. -/
def buildIonInfo (chainId : String) (ionList : List String) : ChainInfo :=
  { chainId := chainId ++ "-ion"
    type := ChainKind.Ion
    sequence := String.intercalate (", ") (ionList.map ionSymbol)
    residueCount := ionList.length
    startResidue := 0 }

/-- Sort precedence of the final display ordering. -/
def typeOrder : ChainKind → Nat
  | ChainKind.Protein => 0
  | ChainKind.RNA => 1
  | ChainKind.DNA => 2
  | ChainKind.Ion => 3
  | ChainKind.Ligand => 4
  | ChainKind.Other => 5

/-- `parsePDB` on a list of lines: run the loop, emit polymer records then
ion records, and stable-sort by type precedence (ECMAScript sort is
stable). -/
def parsePDBLines (lines : List (List Char)) : List ChainInfo :=
  let st := parseStateOf lines
  let result := st.chains.map (fun e => buildChainInfo e.1 e.2) ++
    st.ions.map (fun e => buildIonInfo e.1 e.2)
  result.insertionSort (fun a b => typeOrder a.type ≤ typeOrder b.type)

/-- `parsePDB` of PDBInformation: split the text at newlines and parse. -/
def parsePDB (pdbContent : String) : List ChainInfo :=
  parsePDBLines (splitNL pdbContent.data)

/-- Association-list lookup (JavaScript `Map.get`). -/
def alookup {α : Type} : List (String × α) → String → Option α
  | [], _ => Option.none
  | (k, v) :: rest, c => if k = c then some v else alookup rest c

/-- The ascending residue numbers recorded for chain `c` of a text. -/
def chainResidueNumbers (text : String) (c : String) : List Int :=
  match alookup (parseStateOf (splitNL text.data)).chains c with
  | Option.none => []
  | some cd => (cd.residues.map Prod.fst).insertionSort (· ≤ ·)

/-- The recorded one-letter code of residue `n` in chain `c` of a text. -/
def chainResidueCode (text : String) (c : String) (n : Int) : Option Char :=
  match alookup (parseStateOf (splitNL text.data)).chains c with
  | Option.none => Option.none
  | some cd => cd.residues.lookup n

/-! ### Association list helper lemmas for the parser -/

/-- Left-biased choice on options (JavaScript `??` / first-wins). -/
def optOr {α : Type} : Option α → Option α → Option α
  | some a, _ => some a
  | Option.none, b => b

lemma optOr_none_right {α : Type} (o : Option α) : optOr o Option.none = o := by
  cases o <;> rfl

lemma alookup_mem {α : Type} (l : List (String × α)) (c : String) (v : α)
    (h : alookup l c = some v) : (c, v) ∈ l := by
  induction l with
  | nil => simp [alookup] at h
  | cons e rest ih =>
    rcases e with ⟨k, w⟩
    by_cases hk : k = c
    · subst hk
      simp [alookup] at h
      simp [h]
    · simp [alookup, hk] at h
      simp [ih h]

lemma mem_alookup {α : Type} (l : List (String × α)) (c : String) (v : α)
    (hnd : (l.map Prod.fst).Nodup) (h : (c, v) ∈ l) : alookup l c = some v := by
  induction l with
  | nil => simp at h
  | cons e rest ih =>
    rcases e with ⟨k, w⟩
    simp only [List.map_cons, List.nodup_cons] at hnd
    rcases List.mem_cons.mp h with he | he
    · rcases Prod.mk.injEq .. ▸ he with ⟨h1, h2⟩
      injection he with h1 h2
      subst h1; subst h2
      simp [alookup]
    · have hk : k ≠ c := by
        intro hkc
        subst hkc
        exact hnd.1 (List.mem_map.mpr ⟨(k, v), he, rfl⟩)
      simp [alookup, hk]
      exact ih hnd.2 he

lemma lookup_append (l1 l2 : List (Int × Char)) (n : Int) :
    (l1 ++ l2).lookup n = optOr (l1.lookup n) (l2.lookup n) := by
  induction l1 with
  | nil => simp [optOr]
  | cons e rest ih =>
    rcases e with ⟨k, v⟩
    by_cases hk : n = k
    · subst hk
      simp [List.lookup, optOr]
    · have : (n == k) = false := by simpa using hk
      simp [List.lookup, this, ih]

lemma lookup_isSome_iff (l : List (Int × Char)) (n : Int) :
    (l.lookup n).isSome = true ↔ n ∈ l.map Prod.fst := by
  induction l with
  | nil => simp [List.lookup]
  | cons e rest ih =>
    rcases e with ⟨k, v⟩
    by_cases hk : n = k
    · subst hk
      simp [List.lookup]
    · have : (n == k) = false := by simpa using hk
      simp [List.lookup, this, ih, hk]

/-! ### chainUpd / chainAdd / ionAdd lemmas -/

lemma chainUpd_lookup (cd : ChainData) (rn : String) (n2 n : Int) :
    (chainUpd cd rn n2).residues.lookup n =
      if n = n2 then optOr (cd.residues.lookup n) (some (threeToOne rn))
      else cd.residues.lookup n := by
  unfold chainUpd
  by_cases hs : (cd.residues.lookup n2).isSome = true
  · rw [if_pos hs]
    by_cases hn : n = n2
    · subst hn
      rcases h : cd.residues.lookup n with _ | v
      · rw [h] at hs; simp at hs
      · simp [optOr]
    · simp [hn]
  · rw [if_neg hs]
    simp only [lookup_append]
    by_cases hn : n = n2
    · subst hn
      rcases h : cd.residues.lookup n with _ | v
      · simp [List.lookup, optOr]
      · rw [h] at hs; simp at hs
    · have : (n == n2) = false := by simpa using hn
      simp [List.lookup, this, hn, optOr_none_right]

lemma chainUpd_keys (cd : ChainData) (rn : String) (n2 : Int) :
    (chainUpd cd rn n2).residues.map Prod.fst =
      if n2 ∈ cd.residues.map Prod.fst then cd.residues.map Prod.fst
      else cd.residues.map Prod.fst ++ [n2] := by
  unfold chainUpd
  by_cases hs : (cd.residues.lookup n2).isSome = true
  · rw [if_pos hs, if_pos ((lookup_isSome_iff _ _).mp hs)]
  · rw [if_neg hs]
    have hmem : n2 ∉ cd.residues.map Prod.fst := by
      intro hm
      exact hs ((lookup_isSome_iff _ _).mpr hm)
    simp [hmem]

lemma chainUpd_keys_nodup (cd : ChainData) (rn : String) (n2 : Int)
    (h : (cd.residues.map Prod.fst).Nodup) :
    ((chainUpd cd rn n2).residues.map Prod.fst).Nodup := by
  rw [chainUpd_keys]
  by_cases hm : n2 ∈ cd.residues.map Prod.fst
  · simpa [hm] using h
  · simp only [hm, if_false]
    simpa [List.nodup_append, hm] using h

lemma chainAdd_alookup (chains : List (String × ChainData)) (c0 : String)
    (rn : String) (rs : Int) (c : String) :
    alookup (chainAdd chains c0 rn rs) c =
      if c0 = c then
        some (chainUpd ((alookup chains c).getD
          { residues := [], type := ChainKind.Protein }) rn rs)
      else alookup chains c := by
  induction chains with
  | nil =>
    by_cases h : c0 = c
    · subst h; simp [chainAdd, alookup]
    · simp [chainAdd, alookup, h]
  | cons e rest ih =>
    rcases e with ⟨k, v⟩
    by_cases hk : k = c0
    · subst hk
      by_cases hc : k = c
      · subst hc
        simp [chainAdd, alookup]
      · simp [chainAdd, alookup, hc]
    · by_cases hc : k = c
      · subst hc
        have hc0 : ¬ c0 = k := fun h => hk (Eq.symm h)
        simp [chainAdd, hk, alookup, hc0]
      · simp [chainAdd, hk, alookup, hc, ih]

lemma chainAdd_keys (chains : List (String × ChainData)) (c0 : String)
    (rn : String) (rs : Int) :
    (chainAdd chains c0 rn rs).map Prod.fst =
      if c0 ∈ chains.map Prod.fst then chains.map Prod.fst
      else chains.map Prod.fst ++ [c0] := by
  induction chains with
  | nil => simp [chainAdd]
  | cons e rest ih =>
    rcases e with ⟨k, v⟩
    by_cases hk : k = c0
    · subst hk
      simp [chainAdd]
    · have hne : ¬ c0 = k := fun h => hk h.symm
      simp only [chainAdd, if_neg hk, List.map_cons, ih]
      by_cases hm : c0 ∈ rest.map Prod.fst <;> simp [hm, hne]

lemma ionAdd_alookup (ions : List (String × List String)) (c0 rn c : String) :
    alookup (ionAdd ions c0 rn) c =
      if c0 = c then
        some (let v := (alookup ions c).getD []
              if rn ∈ v then v else v ++ [rn])
      else alookup ions c := by
  induction ions with
  | nil =>
    by_cases h : c0 = c
    · subst h; simp [ionAdd, alookup]
    · simp [ionAdd, alookup, h]
  | cons e rest ih =>
    rcases e with ⟨k, v⟩
    by_cases hk : k = c0
    · subst hk
      by_cases hc : k = c
      · subst hc
        simp [ionAdd, alookup]
      · simp [ionAdd, alookup, hc]
    · by_cases hc : k = c
      · subst hc
        have hc0 : ¬ c0 = k := fun h => hk (Eq.symm h)
        simp [ionAdd, hk, alookup, hc0]
      · simp [ionAdd, hk, alookup, hc, ih]

lemma ionAdd_keys (ions : List (String × List String)) (c0 rn : String) :
    (ionAdd ions c0 rn).map Prod.fst =
      if c0 ∈ ions.map Prod.fst then ions.map Prod.fst
      else ions.map Prod.fst ++ [c0] := by
  induction ions with
  | nil => simp [ionAdd]
  | cons e rest ih =>
    rcases e with ⟨k, v⟩
    by_cases hk : k = c0
    · subst hk
      simp [ionAdd]
    · have hne : ¬ c0 = k := fun h => hk h.symm
      simp only [ionAdd, if_neg hk, List.map_cons, ih]
      by_cases hm : c0 ∈ rest.map Prod.fst <;> simp [hm, hne]

/-! ### Parse-state invariant and per-chain fold characterization -/

/-- Well-formedness of the accumulator state: both maps have distinct keys,
polymer chain keys are single characters, residue numbers within a chain are
distinct, and ion species lists are duplicate-free. -/
def StWF (st : ParseState) : Prop :=
  (st.chains.map Prod.fst).Nodup ∧
  (∀ e ∈ st.chains, e.1.length = 1 ∧ (e.2.residues.map Prod.fst).Nodup) ∧
  (st.ions.map Prod.fst).Nodup ∧
  (∀ e ∈ st.ions, e.1.length = 1 ∧ e.2.Nodup)

lemma length_dropWhile_le2 {α : Type} (p : α → Bool) (l : List α) :
    (l.dropWhile p).length ≤ l.length := by
  induction l with
  | nil => simp [List.dropWhile]
  | cons a t ih =>
    cases h : p a
    · rw [List.dropWhile_cons_of_neg (by simp [h])]
    · rw [List.dropWhile_cons_of_pos (by simp [h])]
      simp only [List.length_cons]
      omega

lemma trimCh_length_le (l : List Char) : (trimCh l).length ≤ l.length := by
  unfold trimCh
  calc ((l.dropWhile Char.isWhitespace).reverse.dropWhile Char.isWhitespace).reverse.length
      = ((l.dropWhile Char.isWhitespace).reverse.dropWhile Char.isWhitespace).length := by
        rw [List.length_reverse]
    _ ≤ (l.dropWhile Char.isWhitespace).reverse.length := length_dropWhile_le2 _ _
    _ = (l.dropWhile Char.isWhitespace).length := by rw [List.length_reverse]
    _ ≤ l.length := length_dropWhile_le2 _ _

lemma chainIdOf_length (l : List Char) : (chainIdOf l).length = 1 := by
  unfold chainIdOf
  have hlen : (trimCh (jsSubstring l 21 22)).length ≤ 1 := by
    have h1 := trimCh_length_le (jsSubstring l 21 22)
    have h2 : (jsSubstring l 21 22).length ≤ 1 := by
      unfold jsSubstring
      calc ((l.drop 21).take (22 - 21)).length ≤ 22 - 21 := List.length_take_le _ _
        _ = 1 := rfl
    omega
  rcases h : trimCh (jsSubstring l 21 22) with _ | ⟨a, t⟩
  · simp only [h]
    simp
    rfl
  · rw [h] at hlen
    simp only [List.length_cons] at hlen
    have ht : t = [] := by
      cases t
      · rfl
      · simp at hlen
    subst ht
    have hne : ¬ String.mk [a] = "" := by
      intro hcontra
      have := congrArg String.data hcontra
      simp at this
    simp [hne]

lemma ionAdd_forall (P : String × List String → Prop)
    (ions : List (String × List String)) (c0 rn : String)
    (hP : ∀ e ∈ ions, P e)
    (hnew : P (c0, [rn]))
    (hupd : ∀ v, P (c0, v) → P (c0, if rn ∈ v then v else v ++ [rn])) :
    ∀ e ∈ ionAdd ions c0 rn, P e := by
  induction ions with
  | nil =>
    intro e he
    simp only [ionAdd, List.mem_singleton] at he
    subst he
    exact hnew
  | cons e2 rest ih =>
    rcases e2 with ⟨k, v⟩
    intro e he
    by_cases hk : k = c0
    · subst hk
      simp only [ionAdd, if_pos rfl] at he
      rcases List.mem_cons.mp he with he1 | he1
      · subst he1
        exact hupd v (hP _ (List.mem_cons_self _ _))
      · exact hP _ (List.mem_cons_of_mem _ he1)
    · simp only [ionAdd, if_neg hk] at he
      rcases List.mem_cons.mp he with he1 | he1
      · subst he1
        exact hP _ (List.mem_cons_self _ _)
      · exact ih (fun e3 he3 => hP e3 (List.mem_cons_of_mem _ he3)) e he1

lemma chainAdd_forall (P : String × ChainData → Prop)
    (chains : List (String × ChainData)) (c0 rn : String) (rs : Int)
    (hP : ∀ e ∈ chains, P e)
    (hnew : P (c0, chainUpd { residues := [], type := ChainKind.Protein } rn rs))
    (hupd : ∀ v, P (c0, v) → P (c0, chainUpd v rn rs)) :
    ∀ e ∈ chainAdd chains c0 rn rs, P e := by
  induction chains with
  | nil =>
    intro e he
    simp only [chainAdd, List.mem_singleton] at he
    subst he
    exact hnew
  | cons e2 rest ih =>
    rcases e2 with ⟨k, v⟩
    intro e he
    by_cases hk : k = c0
    · subst hk
      simp only [chainAdd, if_pos rfl] at he
      rcases List.mem_cons.mp he with he1 | he1
      · subst he1
        exact hupd v (hP _ (List.mem_cons_self _ _))
      · exact hP _ (List.mem_cons_of_mem _ he1)
    · simp only [chainAdd, if_neg hk] at he
      rcases List.mem_cons.mp he with he1 | he1
      · subst he1
        exact hP _ (List.mem_cons_self _ _)
      · exact ih (fun e3 he3 => hP e3 (List.mem_cons_of_mem _ he3)) e he1

lemma keys_append_singleton_nodup {α : Type} [DecidableEq α] (keys : List α) (c : α)
    (hnd : keys.Nodup) (hm : c ∉ keys) : (keys ++ [c]).Nodup := by
  rw [List.nodup_append]
  refine ⟨hnd, List.nodup_singleton _, ?_⟩
  intro x hx hx2
  simp only [List.mem_singleton] at hx2
  subst hx2
  exact hm hx

lemma stWF_processLine (st : ParseState) (l : List Char) (h : StWF st) :
    StWF (processLine st l) := by
  obtain ⟨hck, hce, hik, hie⟩ := h
  unfold processLine
  split
  · split
    · exact ⟨hck, hce, hik, hie⟩
    · split
      · split
        · exact ⟨hck, hce, hik, hie⟩
        · split
          · refine ⟨hck, hce, ?_, ?_⟩
            · rw [ionAdd_keys]
              by_cases hm : chainIdOf l ∈ st.ions.map Prod.fst
              · rw [if_pos hm]
                exact hik
              · rw [if_neg hm]
                exact keys_append_singleton_nodup _ _ hik hm
            · refine ionAdd_forall _ st.ions _ _ hie
                ⟨chainIdOf_length l, List.nodup_singleton _⟩ ?_
              intro v hv
              refine ⟨hv.1, ?_⟩
              by_cases hrn : resNameOf l ∈ v
              · rw [if_pos hrn]
                exact hv.2
              · rw [if_neg hrn]
                exact keys_append_singleton_nodup _ _ hv.2 hrn
          · exact ⟨hck, hce, hik, hie⟩
      · refine ⟨?_, ?_, hik, hie⟩
        · rw [chainAdd_keys]
          by_cases hm : chainIdOf l ∈ st.chains.map Prod.fst
          · rw [if_pos hm]
            exact hck
          · rw [if_neg hm]
            exact keys_append_singleton_nodup _ _ hck hm
        · refine chainAdd_forall _ st.chains _ _ _ hce
            ⟨chainIdOf_length l, chainUpd_keys_nodup _ _ _ (by simp)⟩ ?_
          intro v hv
          exact ⟨hv.1, chainUpd_keys_nodup _ _ _ hv.2⟩
  · exact ⟨hck, hce, hik, hie⟩

lemma stWF_foldl (lines : List (List Char)) :
    ∀ (st : ParseState), StWF st → StWF (lines.foldl processLine st) := by
  induction lines with
  | nil => intro st h; exact h
  | cons l rest ih => intro st h; exact ih _ (stWF_processLine st l h)

lemma stWF_parseState (lines : List (List Char)) : StWF (parseStateOf lines) :=
  stWF_foldl lines _ (by refine ⟨?_, ?_, ?_, ?_⟩ <;> simp)

/-! ### Per-chain projection of the parsing fold -/

/-- The effect of one line on the accumulator entry of chain `c` (viewed
through `alookup`): a polymer atom line of chain `c` with a parsable residue
number get-or-creates the entry and applies `chainUpd`; every other line
leaves it unchanged. -/
def chainStepO (c : String) (o : Option ChainData) (l : List Char) :
    Option ChainData :=
  if isAtomLine l then
    match resSeqOf l with
    | Option.none => o
    | some n =>
      if recordTypeOf l = "HETATM" then o
      else if chainIdOf l = c then
        some (chainUpd (o.getD { residues := [], type := ChainKind.Protein })
          (resNameOf l) n)
      else o
  else o

/-- The accumulated entry of chain `c` after a list of lines. -/
def chainFoldO (c : String) (o : Option ChainData) (lines : List (List Char)) :
    Option ChainData :=
  lines.foldl (chainStepO c) o

lemma alookup_processLine (st : ParseState) (l : List Char) (c : String) :
    alookup (processLine st l).chains c = chainStepO c (alookup st.chains c) l := by
  unfold processLine chainStepO
  split
  · split
    · rfl
    · split
      · split
        · rfl
        · split
          · rfl
          · rfl
      · rw [chainAdd_alookup]
  · rfl

lemma alookup_foldl (lines : List (List Char)) :
    ∀ (st : ParseState) (c : String),
      alookup (lines.foldl processLine st).chains c =
        chainFoldO c (alookup st.chains c) lines := by
  induction lines with
  | nil => intro st c; rfl
  | cons l rest ih =>
    intro st c
    show alookup ((rest.foldl processLine (processLine st l))).chains c = _
    rw [ih (processLine st l) c, alookup_processLine]
    rfl

lemma alookup_parseState (lines : List (List Char)) (c : String) :
    alookup (parseStateOf lines).chains c = chainFoldO c Option.none lines := by
  unfold parseStateOf
  rw [alookup_foldl]
  rfl

/-! ### Chain-type characterization (last nucleotide match wins) -/

/-- The residue numbers already recorded in an optional chain entry. -/
def keysO (o : Option ChainData) : List Int :=
  ((o.getD { residues := [], type := ChainKind.Protein }).residues).map Prod.fst

/-- The chain type before any nucleotide line is seen. -/
def baseTypeO (o : Option ChainData) : ChainKind :=
  match o with
  | some cd => cd.type
  | Option.none => ChainKind.Protein

/-- The polymer atom lines of chain `c`, restricted to the first occurrence
of each residue number (given numbers already seen), in input order. -/
def firstOccLines (c : String) : List (List Char) → List Int → List (List Char)
  | [], _ => []
  | l :: rest, seen =>
    if isAtomLine l then
      match resSeqOf l with
      | Option.none => firstOccLines c rest seen
      | some n =>
        if recordTypeOf l = "HETATM" then firstOccLines c rest seen
        else if chainIdOf l = c then
          if n ∈ seen then firstOccLines c rest seen
          else l :: firstOccLines c rest (seen ++ [n])
        else firstOccLines c rest seen
    else firstOccLines c rest seen

/-- Whether a line carries a nucleotide residue name. -/
def isNucLine (l : List Char) : Bool :=
  decide (resNameOf l ∈ rnaNames) || decide (resNameOf l ∈ dnaNames)

/-- The chain type induced by one nucleotide line. -/
def nucType (l : List Char) : ChainKind :=
  if resNameOf l ∈ rnaNames then ChainKind.RNA else ChainKind.DNA

/-- The type given to chain `c` by the parser: among the first-occurrence
polymer lines of the chain, the last one carrying a nucleotide residue name
decides (RNA for a ribonucleotide code, DNA for a deoxyribonucleotide code);
Protein when there is none. -/
def lastMatchType (c : String) (lines : List (List Char)) : ChainKind :=
  match ((firstOccLines c lines []).filter isNucLine).getLast? with
  | some l => nucType l
  | Option.none => ChainKind.Protein

lemma getLast?_cons {α : Type} (a : α) (t : List α) :
    (a :: t).getLast? = some ((t.getLast?).getD a) := by
  induction t generalizing a with
  | nil => rfl
  | cons b t2 ih =>
    have h1 := ih b
    rw [List.getLast?_cons_cons, h1]
    simp

lemma chainUpd_mem_id (cd : ChainData) (rn : String) (n : Int)
    (h : n ∈ cd.residues.map Prod.fst) : chainUpd cd rn n = cd := by
  unfold chainUpd
  rw [if_pos ((lookup_isSome_iff _ _).mpr h)]

lemma keysO_chainUpd_not_mem (o : Option ChainData) (rn : String) (n : Int)
    (h : n ∉ keysO o) :
    keysO (some (chainUpd (o.getD { residues := [], type := ChainKind.Protein }) rn n)) =
      keysO o ++ [n] := by
  unfold keysO chainUpd
  rcases o with _ | cd
  · simp
  · simp only [Option.getD_some]
    rw [if_neg]
    · simp
    · intro hs
      exact h (by simpa [keysO] using (lookup_isSome_iff _ _).mp hs)

/-- The chain entry type after the fold equals the last-nucleotide-match
characterization. -/
theorem chainFoldO_type (lines : List (List Char)) :
    ∀ (o : Option ChainData) (c : String) (cd : ChainData),
      chainFoldO c o lines = some cd →
      cd.type =
        (match ((firstOccLines c lines (keysO o)).filter isNucLine).getLast? with
          | some l2 => nucType l2
          | Option.none => baseTypeO o) := by
  induction lines with
  | nil =>
    intro o c cd h
    have ho : o = some cd := h
    subst ho
    simp [firstOccLines, baseTypeO]
  | cons l rest ih =>
    intro o c cd h
    have hstep : chainFoldO c o (l :: rest) = chainFoldO c (chainStepO c o l) rest := rfl
    rw [hstep] at h
    by_cases ha : isAtomLine l
    case neg =>
      have hs : chainStepO c o l = o := by simp [chainStepO, ha]
      rw [hs] at h
      rw [ih o c cd h]
      simp [firstOccLines, ha]
    case pos =>
      rcases hn : resSeqOf l with _ | n
      · have hs : chainStepO c o l = o := by simp [chainStepO, ha, hn]
        rw [hs] at h
        rw [ih o c cd h]
        simp [firstOccLines, ha, hn]
      · by_cases hh : recordTypeOf l = "HETATM"
        · have hs : chainStepO c o l = o := by simp [chainStepO, ha, hn, hh]
          rw [hs] at h
          rw [ih o c cd h]
          simp [firstOccLines, ha, hn, hh]
        · by_cases hc : chainIdOf l = c
          · by_cases hm : n ∈ keysO o
            · -- residue number already seen: chainUpd is the identity
              have ho : ∃ cd0, o = some cd0 := by
                rcases o with _ | cd0
                · simp [keysO] at hm
                · exact ⟨cd0, rfl⟩
              obtain ⟨cd0, rfl⟩ := ho
              have hs : chainStepO c (some cd0) l = some cd0 := by
                simp only [chainStepO, ha, if_true, hn, hh, if_false, hc, if_pos rfl]
                rw [Option.getD_some, chainUpd_mem_id cd0 _ _ (by simpa [keysO] using hm)]
              rw [hs] at h
              rw [ih (some cd0) c cd h]
              simp [firstOccLines, ha, hn, hh, hc, hm]
            · -- new residue number: the line is kept
              set cd1 := chainUpd (o.getD { residues := [], type := ChainKind.Protein })
                (resNameOf l) n with hcd1
              have hs : chainStepO c o l = some cd1 := by
                simp [chainStepO, ha, hn, hh, hc]
              rw [hs] at h
              have hkeys := keysO_chainUpd_not_mem o (resNameOf l) n hm
              have hfo : firstOccLines c (l :: rest) (keysO o) =
                  l :: firstOccLines c rest (keysO o ++ [n]) := by
                simp [firstOccLines, ha, hn, hh, hc, hm]
              rw [hfo]
              rw [← hcd1] at hkeys
              have hih := ih (some cd1) c cd h
              rw [hkeys] at hih
              rw [hih]
              have hmemo :
                  ¬ ((o.getD { residues := [], type := ChainKind.Protein }).residues.lookup n).isSome = true := by
                intro hs2
                apply hm
                rcases o with _ | cd0
                · simp [List.lookup] at hs2
                · simpa [keysO] using (lookup_isSome_iff _ _).mp hs2
              have htype1 : cd1.type =
                  (if resNameOf l ∈ rnaNames then ChainKind.RNA
                   else if resNameOf l ∈ dnaNames then ChainKind.DNA
                   else (o.getD { residues := [], type := ChainKind.Protein }).type) := by
                rw [hcd1]
                unfold chainUpd
                rw [if_neg hmemo]
              by_cases hnuc : isNucLine l = true
              · have hty : cd1.type = nucType l := by
                  rw [htype1]
                  unfold nucType
                  by_cases hr : resNameOf l ∈ rnaNames
                  · simp [hr]
                  · have hd : resNameOf l ∈ dnaNames := by
                      simp only [isNucLine, Bool.or_eq_true, decide_eq_true_eq] at hnuc
                      tauto
                    simp [hr, hd]
                rw [List.filter_cons_of_pos hnuc, getLast?_cons]
                rcases hlast : ((firstOccLines c rest (keysO o ++ [n])).filter
                    isNucLine).getLast? with _ | l2
                · simpa [baseTypeO] using hty
                · simp
              · have hty : cd1.type = baseTypeO o := by
                  rw [htype1]
                  simp only [isNucLine, Bool.or_eq_true, decide_eq_true_eq] at hnuc
                  push_neg at hnuc
                  rcases o with _ | cd0 <;> simp [hnuc.1, hnuc.2, baseTypeO]
                rw [List.filter_cons_of_neg (by simpa using hnuc)]
                rcases hlast : ((firstOccLines c rest (keysO o ++ [n])).filter
                    isNucLine).getLast? with _ | l2
                · simpa [baseTypeO] using hty
                · rfl
          · have hs : chainStepO c o l = o := by
              simp [chainStepO, ha, hn, hh, hc]
            rw [hs] at h
            rw [ih o c cd h]
            simp [firstOccLines, ha, hn, hh, hc]

/-! ### Output record membership -/

/-- Every non-Ion record of `parsePDB` is the built record of a chains-map
entry, reachable by lookup of its chain id. -/
lemma polymer_record_mem (text : String) (info : ChainInfo)
    (hmem : info ∈ parsePDB text) (hty : info.type ≠ ChainKind.Ion) :
    ∃ cd, alookup (parseStateOf (splitNL text.data)).chains info.chainId = some cd ∧
      info = buildChainInfo info.chainId cd := by
  unfold parsePDB parsePDBLines at hmem
  have hperm := List.perm_insertionSort
    (fun (a b : ChainInfo) => typeOrder a.type ≤ typeOrder b.type)
    ((parseStateOf (splitNL text.data)).chains.map (fun e => buildChainInfo e.1 e.2) ++
      (parseStateOf (splitNL text.data)).ions.map (fun e => buildIonInfo e.1 e.2))
  have hmem2 := hperm.subset hmem
  rcases List.mem_append.mp hmem2 with hp | hi
  · obtain ⟨e, he, heq⟩ := List.mem_map.mp hp
    rcases e with ⟨c2, cd⟩
    have hcid : info.chainId = c2 := by
      rw [← heq]
      simp [buildChainInfo]
    refine ⟨cd, ?_, ?_⟩
    · rw [hcid]
      exact mem_alookup _ _ _ (stWF_parseState (splitNL text.data)).1 he
    · rw [hcid, ← heq]
  · obtain ⟨e, he, heq⟩ := List.mem_map.mp hi
    exfalso
    apply hty
    rw [← heq]
    rfl

/-! ## Claim C5 -/

/-- C5 counterexample: a chain containing a ribonucleotide residue (A, line
1) followed by a deoxyribonucleotide residue (DA, line 2) is classified DNA
by the parser — the last matching residue wins, not the first, so the chain
is not classified RNA as the claim requires. -/
theorem chainType_first_match_cex :
    parsePDB ("ATOM      1  N     A A   1\nATOM      2  N    DA A   2") =
      [{ chainId := "A", type := ChainKind.DNA, sequence := "AA",
         residueCount := 2, startResidue := 1 }] ∧
    (ChainKind.DNA = ChainKind.RNA → False) :=
  ⟨by decide, by decide⟩

/-- C5 (amended): a chain is classified by the LAST type-matching residue:
among the first-occurrence polymer lines of the chain (in input-line order),
the last line whose residue name is a nucleotide code decides the type — RNA
for a ribonucleotide code (A, C, G, U), DNA for a D-prefixed
deoxyribonucleotide code (DA, DC, DG, DT) — and the type defaults to Protein
when no such line exists. -/
theorem chainType_last_match (text : String) (info : ChainInfo)
    (hmem : info ∈ parsePDB text) (hty : info.type ≠ ChainKind.Ion) :
    info.type = lastMatchType info.chainId (splitNL text.data) := by
  obtain ⟨cd, hal, heq⟩ := polymer_record_mem text info hmem hty
  rw [alookup_parseState] at hal
  have htype := chainFoldO_type (splitNL text.data) Option.none info.chainId cd hal
  have hbt : info.type = cd.type := by
    rw [heq]
    simp [buildChainInfo]
  rw [hbt, htype]
  rfl

theorem chainType_last_match_witness :
    ({ chainId := "A", type := ChainKind.DNA, sequence := "AA",
       residueCount := 2, startResidue := 1 } : ChainInfo).type =
      lastMatchType ("A")
        (splitNL ("ATOM      1  N     A A   1\nATOM      2  N    DA A   2").data) :=
  chainType_last_match ("ATOM      1  N     A A   1\nATOM      2  N    DA A   2")
    { chainId := "A", type := ChainKind.DNA, sequence := "AA",
      residueCount := 2, startResidue := 1 }
    (by decide) (by decide)

/-! ## Claim C6 -/

/-- The one-letter code of the first polymer atom line of chain `c` with
residue number `n`, in input-line order. -/
def firstPolymerCode (c : String) (n : Int) : List (List Char) → Option Char
  | [] => Option.none
  | l :: rest =>
    if isAtomLine l ∧ ¬ recordTypeOf l = "HETATM" ∧ resSeqOf l = some n ∧ chainIdOf l = c
    then some (threeToOne (resNameOf l))
    else firstPolymerCode c n rest

lemma optOr_assoc {α : Type} (a b c : Option α) :
    optOr (optOr a b) c = optOr a (optOr b c) := by
  cases a <;> cases b <;> rfl

lemma bind_lookup_getD (o : Option ChainData) (n : Int) :
    (o.getD { residues := [], type := ChainKind.Protein }).residues.lookup n =
      o.bind (fun cd => cd.residues.lookup n) := by
  cases o <;> rfl

/-- The recorded code of residue `n` in the chain `c` entry is the code of
the first polymer line of `(c, n)` — first occurrence wins. -/
lemma chainFoldO_lookup (lines : List (List Char)) :
    ∀ (o : Option ChainData) (c : String) (n : Int),
      ((chainFoldO c o lines).bind (fun cd => cd.residues.lookup n)) =
        optOr (o.bind (fun cd => cd.residues.lookup n))
          (firstPolymerCode c n lines) := by
  induction lines with
  | nil =>
    intro o c n
    show (o.bind _) = _
    rw [firstPolymerCode, optOr_none_right]
  | cons l rest ih =>
    intro o c n
    have hstep : chainFoldO c o (l :: rest) = chainFoldO c (chainStepO c o l) rest := rfl
    rw [hstep, ih]
    by_cases ha : isAtomLine l
    · rcases hn : resSeqOf l with _ | n2
      · have hs : chainStepO c o l = o := by simp [chainStepO, ha, hn]
        rw [hs, firstPolymerCode]
        rw [if_neg (by simp [hn])]
      · by_cases hh : recordTypeOf l = "HETATM"
        · have hs : chainStepO c o l = o := by simp [chainStepO, ha, hn, hh]
          rw [hs, firstPolymerCode]
          rw [if_neg (by simp [hh])]
        · by_cases hc : chainIdOf l = c
          · have hs : chainStepO c o l =
                some (chainUpd (o.getD { residues := [], type := ChainKind.Protein })
                  (resNameOf l) n2) := by
              simp [chainStepO, ha, hn, hh, hc]
            rw [hs]
            have hred : ∀ (cdx : ChainData),
                ((some cdx).bind (fun cd => cd.residues.lookup n)) =
                  cdx.residues.lookup n := fun _ => rfl
            by_cases hnn : n = n2
            · subst hnn
              rw [firstPolymerCode, if_pos ⟨ha, hh, hn, hc⟩, hred]
              rw [chainUpd_lookup, if_pos rfl, bind_lookup_getD, optOr_assoc]
              rfl
            · rw [firstPolymerCode, if_neg (by
                intro hcontra
                exact hnn (by
                  have h3 := hcontra.2.2.1
                  rw [hn] at h3
                  injection h3 with h2
                  exact h2.symm))]
              rw [hred]
              rw [chainUpd_lookup, if_neg hnn, bind_lookup_getD]
          · have hs : chainStepO c o l = o := by simp [chainStepO, ha, hn, hh, hc]
            rw [hs, firstPolymerCode]
            rw [if_neg (by intro hcontra; exact hc hcontra.2.2.2)]
    · have hs : chainStepO c o l = o := by simp [chainStepO, ha]
      rw [hs, firstPolymerCode]
      rw [if_neg (by intro hcontra; exact ha hcontra.1)]

lemma sorted_lt_of_le_nodup (l : List Int) (h1 : l.Sorted (· ≤ ·))
    (h2 : l.Nodup) : l.Sorted (· < ·) := by
  have h3 := List.Pairwise.and h1 h2
  exact h3.imp (fun h => lt_of_le_of_ne h.1 h.2)

/-- C6: the parser is deterministic; every non-Ion output record lists its
residue numbers deduplicated in strictly ascending order, its sequence is
the per-number codes in that order, its residue count is the number of
distinct residue numbers, and the code recorded for each residue number is
the one of the first atom line bearing that chain id and number. -/
theorem parsePDB_dedup_sorted_deterministic (text : String) :
    parsePDB text = parsePDB text ∧
    ∀ info, info ∈ parsePDB text → info.type ≠ ChainKind.Ion →
      (chainResidueNumbers text info.chainId).Sorted (· < ·) ∧
      info.sequence.data = (chainResidueNumbers text info.chainId).map
        (fun n => (chainResidueCode text info.chainId n).getD 'X') ∧
      info.residueCount = (chainResidueNumbers text info.chainId).length ∧
      ∀ n : Int, chainResidueCode text info.chainId n =
        firstPolymerCode info.chainId n (splitNL text.data) := by
  refine ⟨rfl, ?_⟩
  intro info hmem hty
  obtain ⟨cd, hal, heq⟩ := polymer_record_mem text info hmem hty
  have hwf := stWF_parseState (splitNL text.data)
  have hmemcd := alookup_mem _ _ _ hal
  have hnodup : (cd.residues.map Prod.fst).Nodup :=
    (hwf.2.1 _ hmemcd).2
  have hnums : chainResidueNumbers text info.chainId =
      (cd.residues.map Prod.fst).insertionSort (· ≤ ·) := by
    unfold chainResidueNumbers
    rw [hal]
  have hcode : ∀ n : Int, chainResidueCode text info.chainId n =
      cd.residues.lookup n := by
    intro n
    unfold chainResidueCode
    rw [hal]
  refine ⟨?_, ?_, ?_, ?_⟩
  · rw [hnums]
    refine sorted_lt_of_le_nodup _ (List.sorted_insertionSort _ _) ?_
    exact ((List.perm_insertionSort _ _).nodup_iff).mpr hnodup
  · have hseq : info.sequence = String.mk
        (((cd.residues.map Prod.fst).insertionSort (· ≤ ·)).map
          (fun n => (cd.residues.lookup n).getD 'X')) := by
      rw [heq]
      simp [buildChainInfo]
    rw [hseq, hnums]
    show (((cd.residues.map Prod.fst).insertionSort (· ≤ ·)).map
      (fun n => (cd.residues.lookup n).getD 'X')) = _
    apply List.map_congr_left
    intro n _
    rw [hcode n]
  · have hcount : info.residueCount =
        ((cd.residues.map Prod.fst).insertionSort (· ≤ ·)).length := by
      rw [heq]
      simp [buildChainInfo]
    rw [hcount, hnums]
  · intro n
    rw [hcode n]
    have hfold := chainFoldO_lookup (splitNL text.data) Option.none info.chainId n
    rw [alookup_parseState] at hal
    rw [hal] at hfold
    simpa [optOr] using hfold

theorem parsePDB_dedup_sorted_witness :
    (chainResidueNumbers ("ATOM      1  N   GLY A   1\nATOM      2  N   ALA A   3")
      ("A")).Sorted (· < ·) ∧
    chainResidueCode ("ATOM      1  N   GLY A   1\nATOM      2  N   ALA A   3")
      ("A") 3 =
      firstPolymerCode ("A") 3
        (splitNL ("ATOM      1  N   GLY A   1\nATOM      2  N   ALA A   3").data) :=
  have h := (parsePDB_dedup_sorted_deterministic
      ("ATOM      1  N   GLY A   1\nATOM      2  N   ALA A   3")).2
    { chainId := "A", type := ChainKind.Protein, sequence := "GA",
      residueCount := 2, startResidue := 1 }
    (by decide) (by decide)
  ⟨h.1, h.2.2.2 3⟩

/-! ## Claim C8 -/

lemma string_append_right_cancel (a b s : String) (h : a ++ s = b ++ s) :
    a = b := by
  have hd := congrArg String.data h
  rw [String.data_append, String.data_append] at hd
  have hdata : a.data = b.data := by
    have hlen : a.data.length = b.data.length := by
      have := congrArg List.length hd
      rw [List.length_append, List.length_append] at this
      omega
    exact (List.append_inj_left hd hlen)
  cases a with
  | mk la =>
    cases b with
    | mk lb =>
      simp only at hdata
      rw [hdata]

lemma countP_eq_key_nodup_le_one (l : List String) (hl : l.Nodup) (d : String) :
    l.countP (fun k => decide (k = d)) ≤ 1 := by
  induction l with
  | nil => simp
  | cons a rest ih =>
    rw [List.countP_cons]
    simp only [List.nodup_cons] at hl
    by_cases had : a = d
    · subst had
      have hz : rest.countP (fun k => decide (k = a)) = 0 := by
        rw [List.countP_eq_zero]
        intro x hx
        simp only [decide_eq_true_eq]
        intro hxa
        subst hxa
        exact hl.1 hx
      simp [hz]
    · have h0 : decide (a = d) = false := by simpa using had
      rw [h0]
      simpa using ih hl.2

/-- C8 (amended): for every input text, (a) the output has at most one
record keyed `<chainId>-ion` per chain; (b) each accumulated ion entry lists
each distinct species exactly once (duplicate-free) and yields an Ion record
keyed `<chainId>-ion` whose sequence joins the per-species display symbols
and whose residueCount is the number of distinct species; (c) heteroatom
lines naming water leave the parser state unchanged; (d) the display symbols
are charge-annotated for ZN, MG, CA, FE, CL but are the raw codes for NA, K,
MN, CU (this last point corrects the claim — see the counterexample); and
(e) four ZN atom lines in chain A (plus a water line) produce exactly one
`A-ion` record listing `Zn²⁺` once with residueCount 1. -/
theorem parsePDB_ion_aggregation (text : String) :
    (∀ d : String,
      (parsePDB text).countP (fun i => decide (i.chainId = d ++ "-ion")) ≤ 1) ∧
    (∀ e ∈ (parseStateOf (splitNL text.data)).ions,
      e.2.Nodup ∧
      ∃ info, info ∈ parsePDB text ∧ info.chainId = e.1 ++ "-ion" ∧
        info.type = ChainKind.Ion ∧
        info.sequence = String.intercalate (", ") (e.2.map ionSymbol) ∧
        info.residueCount = e.2.length) ∧
    (∀ (st : ParseState) (l : List Char), recordTypeOf l = "HETATM" →
      resNameOf l ∈ waterNames → processLine st l = st) ∧
    (ionSymbol ("ZN") = "Zn²⁺" ∧ ionSymbol ("MG") = "Mg²⁺" ∧
      ionSymbol ("CA") = "Ca²⁺" ∧ ionSymbol ("FE") = "Fe²⁺/³⁺" ∧
      ionSymbol ("CL") = "Cl⁻" ∧ ionSymbol ("NA") = "NA" ∧
      ionSymbol ("K") = "K" ∧ ionSymbol ("MN") = "MN" ∧
      ionSymbol ("CU") = "CU") ∧
    parsePDB ("HETATM    1 ZN    ZN A 101\nHETATM    2 ZN    ZN A 102\nHETATM    3 ZN    ZN A 103\nHETATM    4 ZN    ZN A 104\nHETATM    5  O   HOH A 201") =
      [{ chainId := "A-ion", type := ChainKind.Ion, sequence := "Zn²⁺",
         residueCount := 1, startResidue := 0 }] := by
  have hwf := stWF_parseState (splitNL text.data)
  refine ⟨?_, ?_, ?_, ?_, ?_⟩
  · intro d
    unfold parsePDB parsePDBLines
    rw [(List.perm_insertionSort _ _).countP_eq, List.countP_append]
    have hpoly : ((parseStateOf (splitNL text.data)).chains.map
        (fun e => buildChainInfo e.1 e.2)).countP
        (fun i => decide (i.chainId = d ++ "-ion")) = 0 := by
      rw [List.countP_eq_zero]
      intro info hinfo
      obtain ⟨e, he, heq⟩ := List.mem_map.mp hinfo
      simp only [decide_eq_true_eq]
      intro hid
      have hlen1 : e.1.length = 1 := (hwf.2.1 e he).1
      have hcid : info.chainId = e.1 := by
        rw [← heq]
        simp [buildChainInfo]
      rw [hcid] at hid
      have hlen2 : e.1.length = (d ++ "-ion").length := by rw [hid]
      rw [String.length_append] at hlen2
      have h4 : ("-ion" : String).length = 4 := rfl
      omega
    rw [hpoly]
    have hion : ((parseStateOf (splitNL text.data)).ions.map
        (fun e => buildIonInfo e.1 e.2)).countP
        (fun i => decide (i.chainId = d ++ "-ion")) =
        ((parseStateOf (splitNL text.data)).ions.map Prod.fst).countP
          (fun k => decide (k = d)) := by
      rw [List.countP_map, List.countP_map]
      apply List.countP_congr
      intro e he
      simp only [Function.comp_apply, decide_eq_true_eq]
      have : (buildIonInfo e.1 e.2).chainId = e.1 ++ "-ion" := rfl
      rw [this]
      constructor
      · intro hcontra
        exact string_append_right_cancel _ _ _ hcontra
      · intro h3
        rw [h3]
    rw [hion]
    have := countP_eq_key_nodup_le_one _ hwf.2.2.1 d
    omega
  · intro e he
    refine ⟨(hwf.2.2.2 e he).2, buildIonInfo e.1 e.2, ?_, rfl, rfl, rfl, rfl⟩
    unfold parsePDB parsePDBLines
    rw [(List.perm_insertionSort _ _).mem_iff]
    exact List.mem_append_right _ (List.mem_map.mpr ⟨e, he, rfl⟩)
  · intro st l hrec hwat
    unfold processLine
    split
    · split
      · rfl
      · simp [hrec, hwat]
    · rfl
  · refine ⟨rfl, rfl, rfl, rfl, rfl, rfl, rfl, rfl, rfl⟩
  · decide

theorem parsePDB_ion_aggregation_witness :
    ((parsePDB ("HETATM    1 ZN    ZN A 101\nHETATM    2 ZN    ZN A 102\nHETATM    3 ZN    ZN A 103\nHETATM    4 ZN    ZN A 104\nHETATM    5  O   HOH A 201")).countP
      (fun i => decide (i.chainId = "A" ++ "-ion")) ≤ 1) ∧
    (["ZN"] : List String).Nodup ∧
    (∃ info, info ∈ parsePDB ("HETATM    1 ZN    ZN A 101\nHETATM    2 ZN    ZN A 102\nHETATM    3 ZN    ZN A 103\nHETATM    4 ZN    ZN A 104\nHETATM    5  O   HOH A 201") ∧
      info.chainId = "A" ++ "-ion" ∧ info.type = ChainKind.Ion ∧
      info.sequence = String.intercalate (", ") (["ZN"].map ionSymbol) ∧
      info.residueCount = (["ZN"] : List String).length) := by
  have h := parsePDB_ion_aggregation
    ("HETATM    1 ZN    ZN A 101\nHETATM    2 ZN    ZN A 102\nHETATM    3 ZN    ZN A 103\nHETATM    4 ZN    ZN A 104\nHETATM    5  O   HOH A 201")
  have h2 := h.2.1 ("A", ["ZN"]) (by decide)
  exact ⟨h.1 ("A"), h2.1, h2.2⟩

/-- C8 counterexample: a sodium heteroatom line yields an `A-ion` record
whose listed species label is the raw code `NA` itself, not a
charge-annotated human-readable symbol — refuting the claim that every ion
species is rendered with a charge-annotated symbol instead of the raw
code. -/
theorem parsePDB_ion_symbol_cex :
    parsePDB ("HETATM    1 NA    NA A 301") =
      [{ chainId := "A-ion", type := ChainKind.Ion, sequence := "NA",
         residueCount := 1, startResidue := 0 }] ∧
    ionSymbol ("NA") = "NA" ∧
    (∀ s : String, s = "NA" → ¬ s ≠ "NA") :=
  ⟨by decide, rfl, fun s hs hne => hne hs⟩

/-! ## Sequence annotation renderer (formatSequenceWithScores) -/

/-- Per-residue confidence data (parallel arrays). -/
structure PLDDTData where
  scores : List ℚ
  residueNumbers : List Int
  chainIds : List String
deriving DecidableEq

/-- JavaScript `Map.set` on an association list: replace in place or append. -/
def mapSet : List (Int × Option ℚ) → Int → Option ℚ → List (Int × Option ℚ)
  | [], k, v => [(k, v)]
  | (k0, v0) :: rest, k, v =>
    if k0 = k then (k0, v) :: rest else (k0, v0) :: mapSet rest k v

/-- JavaScript `Map.get` on the association list; the stored value is itself
optional because `scores[idx]` can be `undefined`. -/
def plddtGet : List (Int × Option ℚ) → Int → Option ℚ
  | [], _ => Option.none
  | (k0, v) :: rest, k => if k0 = k then v else plddtGet rest k

/-- The residue-to-score map built by `formatSequenceWithScores`: iterate the
`residueNumbers` array and keep entries whose chain id matches. -/
def buildPlddtMap (pd : PLDDTData) (chainId : String) : List (Int × Option ℚ) :=
  (List.range pd.residueNumbers.length).foldl
    (fun m idx =>
      if pd.chainIds[idx]? = some chainId then
        match pd.residueNumbers[idx]? with
        | some rn => mapSet m rn pd.scores[idx]?
        | Option.none => m
      else m) []

/-- The data of one rendered residue cell (`ResidueWithScore` props). -/
structure RenderedResidue where
  char : Char
  residueNumber : Int
  plddtScore : Option ℚ
  highlightType : HighlightType
deriving DecidableEq

/-- One rendered sequence row: the left flank number, the residue groups,
and the right flank number. -/
structure SeqRow where
  leftFlank : Int
  groups : List (List RenderedResidue)
  rightFlank : Int
deriving DecidableEq

/-- The `lineStart` values of the row loop (`charsPerLine = 40`). -/
def rowStarts (n : Nat) : List Nat :=
  (List.range ((n + 39) / 40)).map (fun k => k * 40)

/-- The `groupStart` values of the group loop (`charsPerGroup = 10`). -/
def groupStarts (m : Nat) : List Nat :=
  (List.range ((m + 9) / 10)).map (fun k => k * 10)

/-- One rendered residue at a given index of the full sequence. -/
def renderResidue (seq : List Char) (startResidue : Int)
    (pm : List (Int × Option ℚ)) (pae : Option PAEHighlight)
    (residueIndex : Nat) : RenderedResidue :=
  let residueNumber := startResidue + residueIndex
  { char := seq.getD residueIndex ' '
    residueNumber := residueNumber
    plddtScore := plddtGet pm residueNumber
    highlightType := getHighlightType residueNumber pae }

/-- `formatSequenceWithScores` of PDBInformation, with the React node tree
modelled as data: rows of 40 residues, split into groups of 10, each row
flanked by `startResidue + lineStart` and `startResidue + lineEnd - 1`. -/
def formatSequenceWithScores (sequence : String) (startResidue : Int)
    (chainId : String) (plddtData : Option PLDDTData)
    (paeHighlight : Option PAEHighlight) : List SeqRow :=
  let seq := sequence.data
  let pm :=
    match plddtData with
    | some pd => buildPlddtMap pd chainId
    | Option.none => []
  (rowStarts seq.length).map (fun (lineStart : Nat) =>
    let lineEnd : Nat := min (lineStart + 40) seq.length
    { leftFlank := startResidue + (lineStart : Int)
      groups := (groupStarts (lineEnd - lineStart)).map (fun (groupStart : Nat) =>
        (List.range (min (groupStart + 10) (lineEnd - lineStart) - groupStart)).map
          (fun k => renderResidue seq startResidue pm paeHighlight
            (lineStart + (groupStart + k))))
      rightFlank := startResidue + (lineEnd : Int) - 1 })

/-! ### Chunking lemmas for the renderer -/

lemma groupStarts_pos (m : Nat) (h : 0 < m) :
    groupStarts m = 0 :: (groupStarts (m - 10)).map (fun gs => gs + 10) := by
  unfold groupStarts
  have h1 : (m + 9) / 10 = (m - 10 + 9) / 10 + 1 := by omega
  rw [h1, List.range_succ_eq_map]
  simp only [List.map_cons, List.map_map, Nat.zero_mul]
  have h2 : ((fun k => k * 10) ∘ Nat.succ) = ((fun gs => gs + 10) ∘ fun k => k * 10) := by
    funext k
    simp only [Function.comp_apply]
    omega
  rw [h2]

lemma groups_flatten (m : Nat) :
    ∀ {α : Type} (f : Nat → α),
      ((groupStarts m).map (fun gs =>
        (List.range (min (gs + 10) m - gs)).map (fun k => f (gs + k)))).flatten =
      (List.range m).map f := by
  induction m using Nat.strong_induction_on with
  | _ m ih =>
    intro α f
    rcases Nat.eq_zero_or_pos m with rfl | hm
    · simp [groupStarts]
    · rw [groupStarts_pos m hm]
      simp only [List.map_cons, List.flatten_cons, List.map_map]
      rcases le_or_lt m 10 with hle | hlt
      · have h0 : m - 10 = 0 := by omega
        have h1 : min (0 + 10) m - 0 = m := by omega
        rw [h0, h1]
        simp [groupStarts]
      · have h1 : min (0 + 10) m - 0 = 10 := by omega
        rw [h1]
        have htail :
            ((groupStarts (m - 10)).map ((fun gs =>
                (List.range (min (gs + 10) m - gs)).map (fun k => f (gs + k))) ∘
              (fun gs => gs + 10))).flatten =
            (List.range (m - 10)).map (fun j => f (10 + j)) := by
          have hih := ih (m - 10) (by omega) (fun j => f (10 + j))
          have hmap : ∀ gs ∈ groupStarts (m - 10),
              ((fun gs => (List.range (min (gs + 10) m - gs)).map
                  (fun k => f (gs + k))) ∘ (fun gs => gs + 10)) gs =
              (List.range (min (gs + 10) (m - 10) - gs)).map
                (fun k => f (10 + (gs + k))) := by
            intro gs _
            simp only [Function.comp_apply]
            have h2 : min (gs + 10 + 10) m - (gs + 10) = min (gs + 10) (m - 10) - gs := by
              omega
            rw [h2]
            have h3 : (fun k => f (gs + 10 + k)) = (fun k => f (10 + (gs + k))) := by
              funext k
              congr 1
              omega
            rw [h3]
          rw [List.map_congr_left hmap]
          exact hih
        rw [htail]
        have hhead : (fun k => f (0 + k)) = f := by
          funext k
          rw [Nat.zero_add]
        rw [hhead]
        have hsplit : m = 10 + (m - 10) := by omega
        conv_rhs => rw [hsplit, List.range_add, List.map_append, List.map_map]
        rfl

lemma rowStarts_pos (n : Nat) (h : 0 < n) :
    rowStarts n = 0 :: (rowStarts (n - 40)).map (fun ls => ls + 40) := by
  unfold rowStarts
  have h1 : (n + 39) / 40 = (n - 40 + 39) / 40 + 1 := by omega
  rw [h1, List.range_succ_eq_map]
  simp only [List.map_cons, List.map_map, Nat.zero_mul]
  have h2 : ((fun k => k * 40) ∘ Nat.succ) = ((fun ls => ls + 40) ∘ fun k => k * 40) := by
    funext k
    simp only [Function.comp_apply]
    omega
  rw [h2]

lemma head?_range_map {α : Type} (f : Nat → α) (m : Nat) (h : 0 < m) :
    ((List.range m).map f).head? = some (f 0) := by
  obtain ⟨m2, rfl⟩ : ∃ m2, m = m2 + 1 := ⟨m - 1, by omega⟩
  rw [List.range_succ_eq_map]
  simp

lemma getLast?_range_map {α : Type} (f : Nat → α) (m : Nat) (h : 0 < m) :
    ((List.range m).map f).getLast? = some (f (m - 1)) := by
  obtain ⟨m2, rfl⟩ : ∃ m2, m = m2 + 1 := ⟨m - 1, by omega⟩
  rw [List.range_succ, List.map_append]
  simp

lemma row_build_flatten (seq : List Char) (startResidue : Int)
    (pm : List (Int × Option ℚ)) (pae : Option PAEHighlight) (ls m : Nat) :
    ((groupStarts m).map (fun (groupStart : Nat) =>
      (List.range (min (groupStart + 10) m - groupStart)).map
        (fun k => renderResidue seq startResidue pm pae (ls + (groupStart + k))))).flatten =
    (List.range m).map (fun i => renderResidue seq startResidue pm pae (ls + i)) :=
  groups_flatten m (fun i => renderResidue seq startResidue pm pae (ls + i))

/-! ## Claim C9 -/

/-- C9 (amended): in every laid-out row, the left flank number equals the
residue number assigned by the renderer to the first residue of the row, and
the right flank equals the number assigned to the last residue of the row
(these assigned numbers are `startResidueNumber + positional index`; for a
chain whose observed numbering has gaps they differ from the parsed residue
numbers — see the counterexample). -/
theorem formatSequence_row_flanks (sequence : String) (startResidue : Int)
    (chainId : String) (pd : Option PLDDTData) (pae : Option PAEHighlight)
    (row : SeqRow)
    (hrow : row ∈ formatSequenceWithScores sequence startResidue chainId pd pae) :
    (row.groups.flatten.head?).map RenderedResidue.residueNumber =
      some row.leftFlank ∧
    (row.groups.flatten.getLast?).map RenderedResidue.residueNumber =
      some row.rightFlank := by
  simp only [formatSequenceWithScores] at hrow
  obtain ⟨ls, hls, rfl⟩ := List.mem_map.mp hrow
  have hlsn : ls < sequence.data.length := by
    rw [rowStarts] at hls
    obtain ⟨k, hk, rfl⟩ := List.mem_map.mp hls
    have := List.mem_range.mp hk
    omega
  have hm : 0 < min (ls + 40) sequence.data.length - ls := by omega
  constructor
  · simp only [row_build_flatten]
    rw [head?_range_map _ _ hm]
    simp only [Option.map_some, renderResidue]
    simp
  · simp only [row_build_flatten]
    rw [getLast?_range_map _ _ hm]
    simp only [Option.map_some, renderResidue]
    have hidx : ls + (min (ls + 40) sequence.data.length - ls - 1) =
        min (ls + 40) sequence.data.length - 1 := by omega
    rw [hidx, Nat.cast_sub (by omega : 1 ≤ min (ls + 40) sequence.data.length)]
    push_cast
    ring_nf
    simp

theorem formatSequence_row_flanks_witness :
    (let row : SeqRow :=
      { leftFlank := 1
        groups := [[
          { char := 'G', residueNumber := 1, plddtScore := Option.none,
            highlightType := HighlightType.none },
          { char := 'A', residueNumber := 2, plddtScore := Option.none,
            highlightType := HighlightType.none }]]
        rightFlank := 2 };
      (row.groups.flatten.head?).map RenderedResidue.residueNumber =
        some row.leftFlank ∧
      (row.groups.flatten.getLast?).map RenderedResidue.residueNumber =
        some row.rightFlank) :=
  formatSequence_row_flanks ("GA") 1 ("A") Option.none Option.none _ (by decide)

/-- C9 counterexample: for the two-line structure text with residues
numbered 1 and 3 (a gap in the observed numbering) the parser yields the
chain record (sequence GA, startResidue 1) with residue numbers [1, 3],
but the single rendered row is flanked by (1, 2): the right flank 2 differs
from the residue number 3 of the last residue of the row. -/
theorem formatSequence_row_flanks_cex :
    parsePDB ("ATOM      1  N   GLY A   1\nATOM      2  N   ALA A   3") =
      [{ chainId := "A", type := ChainKind.Protein, sequence := "GA",
         residueCount := 2, startResidue := 1 }] ∧
    chainResidueNumbers ("ATOM      1  N   GLY A   1\nATOM      2  N   ALA A   3")
      ("A") = [1, 3] ∧
    (formatSequenceWithScores ("GA") 1 ("A") Option.none Option.none).map
      (fun row => (row.leftFlank, row.rightFlank)) = [((1 : Int), (2 : Int))] ∧
    ((2 : Int) = 3 → False) := by
  refine ⟨by decide, by decide, by decide, by decide⟩

/-! ## Claim C10 -/

/-- Projection of a rendered residue that forgets the confidence score. -/
def residueView (r : RenderedResidue) : Char × Int × HighlightType :=
  (r.char, r.residueNumber, r.highlightType)

/-- Projection of a rendered row that forgets the confidence scores. -/
def rowView (row : SeqRow) : Int × List (List (Char × Int × HighlightType)) × Int :=
  (row.leftFlank, row.groups.map (fun g => g.map residueView), row.rightFlank)

/-- C10: chain identity does not interfere with highlighting — for any two
chain ids and otherwise identical inputs, the rendered output with the
per-residue confidence scores erased is identical; in particular every
residue keeps the same highlight category.  The chainId input influences
only the score lookup. -/
theorem formatSequence_chainId_noninterference (sequence : String)
    (startResidue : Int) (c1 c2 : String) (pd : Option PLDDTData)
    (pae : Option PAEHighlight) :
    (formatSequenceWithScores sequence startResidue c1 pd pae).map rowView =
    (formatSequenceWithScores sequence startResidue c2 pd pae).map rowView := by
  simp [formatSequenceWithScores, rowView, residueView, renderResidue,
    List.map_map, Function.comp]

end GeminiHetzerk
